import Mathlib

/-!
Verification of the twitter-archive preprocessing pipeline
(`twitter_analysis/preprocessing/{text_cleaner.py, archive_processor.py, media_handler.py}`).

Python strings are modelled as `List Char` (a Python `str` is a sequence of
Unicode code points).  Library behaviour used by the code is modelled as
follows, each at the fidelity the verified properties need:
  * `str.isspace` / regex `\s` via `isPySpace` (the Unicode whitespace code
    points recognised by CPython);
  * `unicodedata.normalize("NFKC", ·)` via a per-character compatibility map
    `nfkcChar` covering representative compatibility characters (U+FB01 fi
    ligature, U+FF20 fullwidth commercial at, U+FF21 fullwidth A, U+00A0
    no-break space) and the identity elsewhere;
  * membership in `emoji.EMOJI_DATA` via `isEmojiChar`, a set of
    representative emoji code-point ranges (single-code-point keys of
    EMOJI_DATA); ASCII characters are never emoji;
  * regex character classes `[A-Z]`, `[a-z]`, `\d`, `\w` via their ASCII
    readings (the hashtags and texts the properties quantify over are
    ASCII-ranged where this matters).
Scanning substitutions (`re.sub`) and `str.replace` are implemented with a
structural fuel argument (fuel = length of the list) so that all definitions
compute inside the kernel.
-/

set_option autoImplicit false

/-- Unicode code points matched by CPython `str.isspace` / regex `\s`. -/
def isPySpace (c : Char) : Bool :=
  c.toNat = 32 || (9 ≤ c.toNat && c.toNat ≤ 13) || (28 ≤ c.toNat && c.toNat ≤ 31) ||
  c.toNat = 0x85 || c.toNat = 0xA0 || c.toNat = 0x1680 ||
  (0x2000 ≤ c.toNat && c.toNat ≤ 0x200A) || c.toNat = 0x2028 || c.toNat = 0x2029 ||
  c.toNat = 0x202F || c.toNat = 0x205F || c.toNat = 0x3000

/-- Python `str.strip()`: remove leading and trailing whitespace. -/
def pyStrip (l : List Char) : List Char :=
  ((l.dropWhile isPySpace).reverse.dropWhile isPySpace).reverse

/-- Maximal whitespace-separated runs of `l`, possibly empty at the edges
(auxiliary for `str.split()`).  Never returns `[]`. -/
def splitRuns (l : List Char) : List (List Char) :=
  l.foldr
    (fun c acc =>
      if isPySpace c then [] :: acc
      else
        match acc with
        | [] => [[c]]
        | w :: ws => (c :: w) :: ws)
    [[]]

/-- Python `str.split()` with no argument: maximal nonempty non-whitespace runs. -/
def pyWords (l : List Char) : List (List Char) :=
  (splitRuns l).filter (fun w => !w.isEmpty)

/-- Join word lists with single spaces (Python `" ".join(ws)`). -/
def joinSpace : List (List Char) → List Char
  | [] => []
  | w :: ws =>
    match ws with
    | [] => w
    | _ :: _ => w ++ ' ' :: joinSpace ws

/-- Python `" ".join(text.split())`: collapse whitespace runs and trim. -/
def collapseWs (l : List Char) : List Char := joinSpace (pyWords l)

/-- Python `str.replace(pat, repl)` for a nonempty literal `pat`:
left-to-right, non-overlapping, continuing after each replacement.
`fuel` bounds the recursion; `fuel = l.length` is always enough. -/
def replaceAllF (pat repl : List Char) : Nat → List Char → List Char
  | _, [] => []
  | 0, l => l
  | fuel + 1, c :: cs =>
    if pat.isPrefixOf (c :: cs) then
      repl ++ replaceAllF pat repl fuel ((c :: cs).drop pat.length)
    else
      c :: replaceAllF pat repl fuel cs

/-- Python `str.replace(pat, repl)` (nonempty `pat`). -/
def replaceAll (pat repl l : List Char) : List Char :=
  replaceAllF pat repl l.length l

/-- The apostrophe character (code point 39). -/
def aposChar : Char := Char.ofNat 39

/-- Decode the five HTML entities handled by `TextCleaner.clean_text`
(lines 38-42 of `text_cleaner.py`), in source order. -/
def decodeEntities (l : List Char) : List Char :=
  replaceAll ("&#39".data ++ [';']) [aposChar]
    (replaceAll "&quot;".data "\"".data
      (replaceAll "&gt;".data ">".data
        (replaceAll "&lt;".data "<".data
          (replaceAll "&amp;".data "&".data l))))

/-- Length of the leading non-whitespace run. -/
def nonSpaceRunLen (l : List Char) : Nat :=
  (l.takeWhile (fun c => !isPySpace c)).length

/-- Length of the leftmost match of `https?://\S+|www\.\S+` at the head of
`l`, if any (Python alternation order, greedy `\S+`). -/
def urlMatchLen (l : List Char) : Option Nat :=
  if "https://".data.isPrefixOf l && 0 < nonSpaceRunLen (l.drop 8) then
    some (8 + nonSpaceRunLen (l.drop 8))
  else if "http://".data.isPrefixOf l && 0 < nonSpaceRunLen (l.drop 7) then
    some (7 + nonSpaceRunLen (l.drop 7))
  else if "www.".data.isPrefixOf l && 0 < nonSpaceRunLen (l.drop 4) then
    some (4 + nonSpaceRunLen (l.drop 4))
  else none

/-- Length of the leftmost match of `\S+@\S+` at the head of `l`, if any.
A match at the head exists iff the maximal non-whitespace run starting here
has an `@` that is neither its first nor its last character, and the greedy
trailing `\S+` always extends the match to the end of that run. -/
def emailMatchLen (l : List Char) : Option Nat :=
  match l with
  | [] => none
  | c :: _ =>
    if isPySpace c then none
    else
      let r := l.takeWhile (fun c => !isPySpace c)
      if ((r.drop 1).dropLast).contains '@' then some r.length else none

/-- ASCII word characters (regex `\w`, ASCII reading). -/
def isWordCh (c : Char) : Bool :=
  ('A' ≤ c && c ≤ 'Z') || ('a' ≤ c && c ≤ 'z') || ('0' ≤ c && c ≤ '9') || c = '_'

/-- Length of the leftmost match of `@\w+` at the head of `l`, if any. -/
def mentionMatchLen (l : List Char) : Option Nat :=
  match l with
  | '@' :: rest =>
    let k := (rest.takeWhile isWordCh).length
    if 0 < k then some (1 + k) else none
  | _ => none

/-- Length of the leftmost match of `#\w+` at the head of `l`, if any. -/
def hashtagMatchLen (l : List Char) : Option Nat :=
  match l with
  | '#' :: rest =>
    let k := (rest.takeWhile isWordCh).length
    if 0 < k then some (1 + k) else none
  | _ => none

/-- ASCII digit test (regex `\d`, ASCII reading). -/
def isDigitCh (c : Char) : Bool := '0' ≤ c && c ≤ '9'

/-- Length of the leftmost match of `\d+` at the head of `l`, if any. -/
def numberMatchLen (l : List Char) : Option Nat :=
  let k := (l.takeWhile isDigitCh).length
  if 0 < k then some k else none

/-- `re.sub(pattern, " ", text)` as a left-to-right scan: at each position
try `matchLen`; on a match emit one space and continue after it, otherwise
keep the character.  `fuel = l.length` is always enough for matchers that
return positive lengths. -/
def scanSubF (matchLen : List Char → Option Nat) : Nat → List Char → List Char
  | _, [] => []
  | 0, l => l
  | fuel + 1, c :: cs =>
    match matchLen (c :: cs) with
    | some n => ' ' :: scanSubF matchLen fuel ((c :: cs).drop n)
    | none => c :: scanSubF matchLen fuel cs

/-- `self.url_pattern.sub(" ", text)`. -/
def subUrl (l : List Char) : List Char := scanSubF urlMatchLen l.length l

/-- `self.mention_pattern.sub(" ", text)`. -/
def subMention (l : List Char) : List Char := scanSubF mentionMatchLen l.length l

/-- `self.hashtag_pattern.sub(" ", text)`. -/
def subHashtag (l : List Char) : List Char := scanSubF hashtagMatchLen l.length l

/-- `self.email_pattern.sub(" ", text)`. -/
def subEmail (l : List Char) : List Char := scanSubF emailMatchLen l.length l

/-- `self.number_pattern.sub(" ", text)`. -/
def subNumber (l : List Char) : List Char := scanSubF numberMatchLen l.length l

/-- Membership in `emoji.EMOJI_DATA`, modelled by representative emoji
code-point ranges (all single-code-point EMOJI_DATA keys).  No ASCII
character is an emoji. -/
def isEmojiChar (c : Char) : Bool :=
  (0x1F300 ≤ c.toNat && c.toNat ≤ 0x1F320) ||
  (0x1F330 ≤ c.toNat && c.toNat ≤ 0x1F37C) ||
  (0x1F380 ≤ c.toNat && c.toNat ≤ 0x1F393) ||
  (0x1F600 ≤ c.toNat && c.toNat ≤ 0x1F64F) ||
  (0x1F680 ≤ c.toNat && c.toNat ≤ 0x1F6C5) ||
  (0x2708 ≤ c.toNat && c.toNat ≤ 0x2709)

/-- `unicodedata.normalize("NFKC", ·)`, per character: a representative
compatibility table (fi ligature, fullwidth commercial at, fullwidth A,
no-break space), identity elsewhere.  All table outputs are NFKC-fixed. -/
def nfkcChar (c : Char) : List Char :=
  if c.toNat = 0xFB01 then ['f', 'i']
  else if c.toNat = 0xFF20 then ['@']
  else if c.toNat = 0xFF21 then ['A']
  else if c.toNat = 0xA0 then [' ']
  else [c]

/-- `unicodedata.normalize("NFKC", ·)` on a string. -/
def nfkc (l : List Char) : List Char := (l.map nfkcChar).flatten

/-- `TextCleaner.clean_text` (lines 15-67 of `text_cleaner.py`), with all
seven keyword options. -/
def tcCleanOpts (removeUrls removeMentions removeHashtags removeEmails
    removeNumbers normalizeUnicode preserveEmojis : Bool)
    (text : List Char) : List Char :=
  if text.isEmpty then []
  else
    let emojiList := if preserveEmojis then text.filter isEmojiChar else []
    let t1 := pyStrip text
    let t2 := decodeEntities t1
    let t3 := if removeUrls then subUrl t2 else t2
    let t4 := if removeMentions then subMention t3 else t3
    let t5 := if removeHashtags then subHashtag t4 else t4
    let t6 := if removeEmails then subEmail t5 else t5
    let t7 := if removeNumbers then subNumber t6 else t6
    let t8 := if normalizeUnicode then nfkc t7 else t7
    let t9 := collapseWs t8
    if preserveEmojis && !emojiList.isEmpty then
      t9 ++ ' ' :: joinSpace (emojiList.map (fun c => [c]))
    else t9

/-- `TextCleaner.clean_text` with the default options. -/
def tcClean (text : List Char) : List Char :=
  tcCleanOpts true false false true false true true text

/-- The cleaning pipeline of `TextCleaner.clean_text` under default options,
before emoji re-insertion (strip, entity decode, URL removal, email removal,
NFKC, whitespace collapse). -/
def tcCleanBody (text : List Char) : List Char :=
  collapseWs (nfkc (subEmail (subUrl (decodeEntities (pyStrip text)))))

/-- Regex class `[A-Z]`. -/
def isUpperCh (c : Char) : Bool := 'A' ≤ c && c ≤ 'Z'

/-- Regex class `[a-z]`. -/
def isLowerCh (c : Char) : Bool := 'a' ≤ c && c ≤ 'z'

/-- The lookahead `(?=[A-Z][a-z]|\d|\W|$)` of the camel-case splitting regex
in `TextCleaner.normalize_hashtags`. -/
def camelLookahead (rest : List Char) : Bool :=
  match rest with
  | [] => true
  | c :: cs =>
    (isUpperCh c && (match cs with | c2 :: _ => isLowerCh c2 | [] => false)) ||
    isDigitCh c || !isWordCh c

/-- Greedy backtracking for `[A-Z]{2,}(?=...)`: try the uppercase-run
lengths from `k` down to 2 until the lookahead holds. -/
def acronymTry : Nat → List Char → Option Nat
  | 0, _ => none
  | 1, _ => none
  | k + 2, l => if camelLookahead (l.drop (k + 2)) then some (k + 2) else acronymTry (k + 1) l

/-- Leftmost match of `[A-Z]?[a-z]+|[A-Z]{2,}(?=[A-Z][a-z]|\d|\W|$)|\d+` at
the head of `l` (Python alternation order): the token and the rest. -/
def camelTokenAt (l : List Char) : Option (List Char × List Char) :=
  match l with
  | [] => none
  | c :: cs =>
    if isUpperCh c then
      let low := cs.takeWhile isLowerCh
      if !low.isEmpty then some (c :: low, cs.drop low.length)
      else
        match acronymTry (l.takeWhile isUpperCh).length l with
        | some k => some (l.take k, l.drop k)
        | none => none
    else if isLowerCh c then
      let low := l.takeWhile isLowerCh
      some (low, l.drop low.length)
    else if isDigitCh c then
      let ds := l.takeWhile isDigitCh
      some (ds, l.drop ds.length)
    else none

/-- `re.findall` scan for the camel-case regex: collect non-overlapping
leftmost matches, advancing one character on a failed position.
`fuel = l.length` is always enough. -/
def findCamelTokensF : Nat → List Char → List (List Char)
  | _, [] => []
  | 0, _ => []
  | fuel + 1, c :: cs =>
    match camelTokenAt (c :: cs) with
    | some (tok, rest) => tok :: findCamelTokensF fuel rest
    | none => findCamelTokensF fuel cs

/-- Python `str.lower()` (ASCII reading). -/
def toLowerCh (c : Char) : Char := if isUpperCh c then Char.ofNat (c.toNat + 32) else c

/-- Python `tag.lstrip("#")`. -/
def lstripHash (l : List Char) : List Char := l.dropWhile (fun c => c = '#')

/-- The inner `split_camel_case` of `TextCleaner.normalize_hashtags`
(lines 85-90 of `text_cleaner.py`). -/
def split_camel_case (tag : List Char) : List Char :=
  let t := lstripHash tag
  joinSpace ((findCamelTokensF t.length t).map (fun w => w.map toLowerCh))

/-- `TextCleaner.normalize_hashtags` (line 92 of `text_cleaner.py`). -/
def normalize_hashtags (tags : List (List Char)) : List (List Char) :=
  tags.map split_camel_case

/-- Result of `datetime.strptime(s, "%a %b %d %H:%M:%S %z %Y")`: the parsed,
validated date (timezone offset in minutes, `tzNeg` for a negative offset). -/
structure PyDateTime where
  year : Nat
  month : Nat
  day : Nat
  hour : Nat
  minute : Nat
  second : Nat
  tzNeg : Bool
  tzOff : Nat
deriving DecidableEq

/-- Abbreviated weekday names of the C locale (`%a`). -/
def weekdayNames : List (List Char) :=
  ["Mon".data, "Tue".data, "Wed".data, "Thu".data, "Fri".data, "Sat".data, "Sun".data]

/-- Abbreviated month names of the C locale (`%b`). -/
def monthNames : List (List Char) :=
  ["Jan".data, "Feb".data, "Mar".data, "Apr".data, "May".data, "Jun".data,
   "Jul".data, "Aug".data, "Sep".data, "Oct".data, "Nov".data, "Dec".data]

/-- Consume one of the 3-letter `names`, returning its 1-based index. -/
def eatName (names : List (List Char)) (l : List Char) : Option (Nat × List Char) :=
  match names.findIdx? (fun n => n.isPrefixOf l) with
  | some i => some (i + 1, l.drop 3)
  | none => none

/-- Consume the whitespace run a literal space in the format matches (`\s+`). -/
def eatWs (l : List Char) : Option (List Char) :=
  match l with
  | c :: cs => if isPySpace c then some (cs.dropWhile isPySpace) else none
  | [] => none

/-- Numeric value of an ASCII digit. -/
def digitVal (c : Char) : Nat := c.toNat - 48

/-- Consume a 1- or 2-digit number with value in `[lo, hi]`
(`%d`, `%H`, `%M`, `%S`). -/
def eat12Digits (lo hi : Nat) (l : List Char) : Option (Nat × List Char) :=
  match l.takeWhile isDigitCh with
  | [d] => if lo ≤ digitVal d && digitVal d ≤ hi then some (digitVal d, l.drop 1) else none
  | [d1, d2] =>
    let v := 10 * digitVal d1 + digitVal d2
    if lo ≤ v && v ≤ hi then some (v, l.drop 2) else none
  | _ => none

/-- Consume one expected character. -/
def eatChar (c : Char) (l : List Char) : Option (List Char) :=
  match l with
  | d :: rest => if d = c then some rest else none
  | [] => none

/-- Consume exactly two digits (the hour field of `%z`, `\d\d`). -/
def eat2DigitsExact (l : List Char) : Option (Nat × List Char) :=
  match l with
  | a :: b :: rest =>
    if isDigitCh a && isDigitCh b then some (10 * digitVal a + digitVal b, rest) else none
  | _ => none

/-- Consume exactly two digits whose value is below 60 (the minutes field of
the `%z` regex, `[0-5]\d`). -/
def eatTzMinutes (l : List Char) : Option (Nat × List Char) :=
  match l with
  | a :: b :: rest =>
    if isDigitCh a && digitVal a ≤ 5 && isDigitCh b then
      some (10 * digitVal a + digitVal b, rest)
    else none
  | _ => none

/-- Consume exactly four digits (`%Y`). -/
def eat4Digits (l : List Char) : Option (Nat × List Char) :=
  match l with
  | a :: b :: c :: d :: rest =>
    if isDigitCh a && isDigitCh b && isDigitCh c && isDigitCh d then
      some (1000 * digitVal a + 100 * digitVal b + 10 * digitVal c + digitVal d, rest)
    else none
  | _ => none

/-- Gregorian leap year. -/
def isLeapYear (y : Nat) : Bool := (y % 4 = 0 && y % 100 ≠ 0) || y % 400 = 0

/-- Days in a month (for `datetime`'s day-of-month validation). -/
def daysInMonth (y m : Nat) : Nat :=
  if m = 2 then (if isLeapYear y then 29 else 28)
  else if m = 4 || m = 6 || m = 9 || m = 11 then 30
  else 31

/-- The `%a %b %d ` part of the format: month and day, and the rest after
the following whitespace. -/
def strptimeDatePart (l : List Char) : Option (Nat × Nat × List Char) := do
  let (_, l1) ← eatName weekdayNames l
  let l2 ← eatWs l1
  let (mon, l3) ← eatName monthNames l2
  let l4 ← eatWs l3
  let (day, l5) ← eat12Digits 1 31 l4
  let l6 ← eatWs l5
  some (mon, day, l6)

/-- The `%H:%M:%S ` part of the format: hour, minute, second, and the rest
after the following whitespace. -/
def strptimeTimePart (l : List Char) : Option (Nat × Nat × Nat × List Char) := do
  let (hh, l7) ← eat12Digits 0 23 l
  let l8 ← eatChar ':' l7
  let (mm, l9) ← eat12Digits 0 59 l8
  let l10 ← eatChar ':' l9
  let (ss, l11) ← eat12Digits 0 59 l10
  let l12 ← eatWs l11
  some (hh, mm, ss, l12)

/-- The `%z %Y` part of the format plus `datetime`'s validation (year at
least `MINYEAR = 1`, day valid for the month, offset strictly below 24
hours): assembles the final value from the already-parsed fields. -/
def strptimeZoneYearPart (mon day hh mm ss : Nat) (l : List Char) : Option PyDateTime := do
  let (neg, l13) ←
    (match l with
     | '+' :: r => some (false, r)
     | '-' :: r => some (true, r)
     | _ => none)
  let (tzh, l14) ← eat2DigitsExact l13
  let (tzm, l15) ← eatTzMinutes l14
  let l16 ← eatWs l15
  let (yr, l17) ← eat4Digits l16
  if l17.isEmpty && 1 ≤ yr && day ≤ daysInMonth yr mon && tzh * 60 + tzm < 24 * 60 then
    some ⟨yr, mon, day, hh, mm, ss, neg, tzh * 60 + tzm⟩
  else none

/-- `datetime.strptime(s, "%a %b %d %H:%M:%S %z %Y")` (Twitter's timestamp
format, `archive_processor.py` line 106): `none` models `ValueError`.  The
`%z` field is modelled in its `±HHMM` form; the whole string must be
consumed and the day must be valid for the month/year. -/
def strptimeTwitter (l : List Char) : Option PyDateTime := do
  let (mon, day, l6) ← strptimeDatePart l
  let (hh, mm, ss, l12) ← strptimeTimePart l6
  strptimeZoneYearPart mon day hh mm ss l12

/-- Parsed JSON values (the entries of an archive file). -/
inductive Json where
  | null
  | bool (b : Bool)
  | num (n : Int)
  | str (s : List Char)
  | arr (xs : List Json)
  | obj (kvs : List (String × Json))

/-- The Python exceptions the embedded code can raise. -/
inductive PyError where
  | nameError (n : String)
  | attributeError
  | typeError
  | valueError
  | keyError (k : String)
deriving DecidableEq

/-- Python truthiness of a JSON value (`bool(x)`). -/
def pyTruthy (j : Json) : Bool :=
  match j with
  | .null => false
  | .bool b => b
  | .num n => n ≠ 0
  | .str s => !s.isEmpty
  | .arr xs => !xs.isEmpty
  | .obj kvs => !kvs.isEmpty

/-- First-match association lookup (Python `dict` lookup; the dictionaries
built here have unique keys). -/
def assocGet : List (String × Json) → String → Option Json
  | [], _ => none
  | (k, v) :: rest, key => if key = k then some v else assocGet rest key

/-- Python `x.get(key, default)`: `AttributeError` when `x` is not a dict. -/
def pyDictGet (j : Json) (key : String) (dflt : Json) : Except PyError Json :=
  match j with
  | .obj kvs => .ok ((assocGet kvs key).getD dflt)
  | _ => .error .attributeError

/-- Fail-fast map over a list in `Except` (a Python comprehension whose body
may raise). -/
def exceptMapList {ε α β : Type} (f : α → Except ε β) : List α → Except ε (List β)
  | [] => .ok []
  | a :: as =>
    match f a with
    | .error e => .error e
    | .ok b =>
      match exceptMapList f as with
      | .error e => .error e
      | .ok bs => .ok (b :: bs)

/-- Python `int(s)` on a string: strip whitespace, optional sign, ASCII
digits; `none` models `ValueError`. -/
def parseIntStr (s : List Char) : Option Int :=
  let t := pyStrip s
  let signed : Bool × List Char :=
    match t with
    | '-' :: r => (true, r)
    | '+' :: r => (false, r)
    | r => (false, r)
  let ds := signed.2
  if !ds.isEmpty && ds.all isDigitCh then
    let v : Int := Int.ofNat (ds.foldl (fun a c => 10 * a + digitVal c) 0)
    some (if signed.1 then -v else v)
  else none

/-- Python `int(x)` on a JSON value. -/
def pyInt (j : Json) : Except PyError Int :=
  match j with
  | .num n => .ok n
  | .bool b => .ok (if b then 1 else 0)
  | .str s =>
    match parseIntStr s with
    | some n => .ok n
    | none => .error .valueError
  | _ => .error .typeError

/-- Iterating or concatenating a JSON value as a list (`TypeError` when it
is not one). -/
def pyAsArr (j : Json) : Except PyError (List Json) :=
  match j with
  | .arr xs => .ok xs
  | _ => .error .typeError

/-- `TwitterArchivePreprocessor.clean_text` (lines 87-95 of
`archive_processor.py`): decode `&amp; &lt; &gt;` and collapse whitespace. -/
def archiveCleanText (l : List Char) : List Char :=
  collapseWs
    (replaceAll "&gt;".data ">".data
      (replaceAll "&lt;".data "<".data
        (replaceAll "&amp;".data "&".data l)))

/-- The `TweetMedia` dataclass of `archive_processor.py`. -/
structure TweetMedia where
  type : Json
  url : Json
  local_path : Option (List Char)

/-- The `Tweet` dataclass of `archive_processor.py`. -/
structure Tweet where
  id : Json
  text : List Char
  created_at : PyDateTime
  likes : Int
  retweets : Int
  hashtags : List Json
  urls : List Json
  media : List TweetMedia
  is_retweet : Bool
  conversation_id : Json
  in_reply_to_user_id : Json
  lang : Json

/-- Lines 100-101: unwrap the optional `"tweet"` container and read
`id_str` with default `"unknown"`.  An error here leaves the local
`tweet_id` unassigned. -/
def unwrapAndId (tweet_data : Json) : Except PyError (Json × Json) :=
  match tweet_data with
  | .obj kvs =>
    let tweet := (assocGet kvs "tweet").getD tweet_data
    match tweet with
    | .obj tkvs => .ok (tweet, (assocGet tkvs "id_str").getD (.str "unknown".data))
    | _ => .error .attributeError
  | _ => .error .attributeError

/-- Lines 103-109: the timestamp.  `archive_processor.py` never imports
`pytz`, so both fallback branches (`created_at` absent/falsy, and
`strptime` raising `ValueError`) evaluate `datetime.now(pytz.UTC)` and
raise `NameError` on the unbound name `pytz`. -/
def extractDate (tweet : Json) : Except PyError PyDateTime := do
  let created_at ← pyDictGet tweet "created_at" (.str [])
  if pyTruthy created_at then
    match created_at with
    | .str s =>
      match strptimeTwitter s with
      | some d => .ok d
      | none => .error (.nameError "pytz")
    | _ => .error .typeError
  else .error (.nameError "pytz")

/-- `find_local_media` applied to the media-url value (lines 125 and
150-168): falsy url gives `None`; the filesystem probe is the `findLocal`
parameter. -/
def pyFindLocal (findLocal : List Char → Option (List Char)) (murl : Json) :
    Except PyError (Option (List Char)) :=
  if !pyTruthy murl then .ok none
  else
    match murl with
    | .str s => .ok (findLocal s)
    | _ => .error .attributeError

/-- Lines 118-126: one media item. -/
def extractMediaItem (findLocal : List Char → Option (List Char)) (mi : Json) :
    Except PyError TweetMedia := do
  let mtype ← pyDictGet mi "type" (.str "unknown".data)
  let mu1 ← pyDictGet mi "media_url" (.str [])
  let mu2 ← pyDictGet mi "media_url_https" (.str [])
  let murl := if pyTruthy mu1 then mu1 else mu2
  let lp ← pyFindLocal findLocal murl
  .ok ⟨mtype, murl, lp⟩

/-- Lines 111-126: the media list from `entities` and `extended_entities`. -/
def extractMedia (findLocal : List Char → Option (List Char)) (tweet : Json) :
    Except PyError (List TweetMedia) := do
  let entities ← pyDictGet tweet "entities" (.obj [])
  let extended ← pyDictGet tweet "extended_entities" (.obj [])
  let m1 ← pyDictGet entities "media" (.arr [])
  let m2 ← pyDictGet extended "media" (.arr [])
  let xs1 ← pyAsArr m1
  let xs2 ← pyAsArr m2
  exceptMapList (extractMediaItem findLocal) (xs1 ++ xs2)

/-- Lines 128-130: `likes = int(tweet.get("favorite_count", 0) or 0)` and
likewise for retweets. -/
def extractCounts (tweet : Json) : Except PyError (Int × Int) := do
  let favRaw ← pyDictGet tweet "favorite_count" (.num 0)
  let likes ← pyInt (if pyTruthy favRaw then favRaw else .num 0)
  let rtRaw ← pyDictGet tweet "retweet_count" (.num 0)
  let rts ← pyInt (if pyTruthy rtRaw then rtRaw else .num 0)
  .ok (likes, rts)

/-- Line 134: `self.clean_text(tweet.get("full_text", tweet.get("text", "")))`. -/
def extractText (tweet : Json) : Except PyError (List Char) := do
  let dflt ← pyDictGet tweet "text" (.str [])
  let raw ← pyDictGet tweet "full_text" dflt
  match raw with
  | .str s => .ok (archiveCleanText s)
  | _ => .error .typeError

/-- Line 138: `[h.get("text", "") for h in entities.get("hashtags", [])]`. -/
def extractHashtags (tweet : Json) : Except PyError (List Json) := do
  let entities ← pyDictGet tweet "entities" (.obj [])
  let hts ← pyDictGet entities "hashtags" (.arr [])
  let xs ← pyAsArr hts
  exceptMapList (fun h => pyDictGet h "text" (.str [])) xs

/-- Line 139: `[u.get("expanded_url", "") for u in entities.get("urls", [])]`. -/
def extractUrls (tweet : Json) : Except PyError (List Json) := do
  let entities ← pyDictGet tweet "entities" (.obj [])
  let us ← pyDictGet entities "urls" (.arr [])
  let xs ← pyAsArr us
  exceptMapList (fun u => pyDictGet u "expanded_url" (.str [])) xs

/-- Lines 141-144: retweet flag (truthiness of `retweeted_status`) and the
passthrough fields. -/
def extractTail (tweet : Json) : Except PyError (Bool × Json × Json × Json) := do
  let rs ← pyDictGet tweet "retweeted_status" .null
  let conv ← pyDictGet tweet "conversation_id_str" (.str [])
  let reply ← pyDictGet tweet "in_reply_to_user_id_str" .null
  let lang ← pyDictGet tweet "lang" (.str "unknown".data)
  .ok (pyTruthy rs, conv, reply, lang)

/-- The body of the `try` block of `process_tweet` after `tweet_id` is
bound (lines 103-145), in source evaluation order. -/
def processFields (findLocal : List Char → Option (List Char))
    (tweet tweet_id : Json) : Except PyError Tweet := do
  let d ← extractDate tweet
  let media ← extractMedia findLocal tweet
  let (likes, rts) ← extractCounts tweet
  let text ← extractText tweet
  let hashtags ← extractHashtags tweet
  let urls ← extractUrls tweet
  let (isRt, conv, reply, lang) ← extractTail tweet
  .ok ⟨tweet_id, text, d, likes, rts, hashtags, urls, media, isRt, conv, reply, lang⟩

/-- `TwitterArchivePreprocessor.process_tweet` (lines 97-148).  The
`except Exception` handler logs with `tweet_id` and returns `None`
(`.ok none`); when the failure happened before `tweet_id` was assigned
(line 100-101), the handler itself raises `NameError` on `tweet_id`, which
escapes the call (`.error`). -/
def process_tweet (findLocal : List Char → Option (List Char)) (tweet_data : Json) :
    Except PyError (Option Tweet) :=
  match unwrapAndId tweet_data with
  | .error _ => .error (.nameError "tweet_id")
  | .ok (tweet, tweet_id) =>
    match processFields findLocal tweet tweet_id with
    | .ok t => .ok (some t)
    | .error _ => .ok none

mutual
/-- Structural equality of JSON values (Python `==`; dict comparison is
modelled order-sensitively, which coincides for the string values compared
here). -/
def jsonBEq : Json → Json → Bool
  | .null, .null => true
  | .bool a, .bool b => a = b
  | .num a, .num b => a = b
  | .str a, .str b => a = b
  | .arr xs, .arr ys => jsonListBEq xs ys
  | .obj a, .obj b => jsonObjBEq a b
  | _, _ => false

def jsonListBEq : List Json → List Json → Bool
  | [], [] => true
  | x :: xs, y :: ys => jsonBEq x y && jsonListBEq xs ys
  | _, _ => false

def jsonObjBEq : List (String × Json) → List (String × Json) → Bool
  | [], [] => true
  | (k1, v1) :: xs, (k2, v2) :: ys => k1 = k2 && jsonBEq v1 v2 && jsonObjBEq xs ys
  | _, _ => false
end

/-- One row of the processed DataFrame, restricted to the columns
`generate_summary_stats` reads (the `Tweet` fields it uses plus the derived
columns added in `process_archive`). -/
structure SummaryRow where
  created_at : PyDateTime
  likes : Int
  retweets : Int
  has_media : Bool
  urls : List Json
  hashtags : List Json
  tweet_length : Nat
  hour_of_day : Nat
  day_of_week : String

/-- A pandas DataFrame: a column index plus the rows.  Column access fails
with `KeyError` when the column is absent. -/
structure PandasDF where
  cols : List String
  rows : List SummaryRow

/-- The columns of the processed DataFrame (Tweet fields plus derived
columns). -/
def summaryCols : List String :=
  ["id", "text", "created_at", "likes", "retweets", "hashtags", "urls", "media",
   "is_retweet", "conversation_id", "in_reply_to_user_id", "lang",
   "has_media", "tweet_length", "hour_of_day", "day_of_week"]

/-- `pd.DataFrame([vars(t) for t in tweets])` (plus the derived columns):
pandas infers the columns from the records, so an empty record list yields
a DataFrame with NO columns. -/
def mkSummaryDF (rows : List SummaryRow) : PandasDF :=
  ⟨if rows.isEmpty then [] else summaryCols, rows⟩

/-- `df[c]`, projected through the typed row: `KeyError` when the column is
missing from the frame. -/
def colGet {α : Type} (df : PandasDF) (c : String) (f : SummaryRow → α) :
    Except PyError (List α) :=
  if df.cols.contains c then .ok (df.rows.map f) else .error (.keyError c)

/-- Days since the Unix epoch of a civil date (standard civil-from-days
inverse, valid for year ≥ 1). -/
def daysFromCivil (year month day : Nat) : Int :=
  let y := if month ≤ 2 then year - 1 else year
  let era := y / 400
  let yoe := y - era * 400
  let mp := (month + 9) % 12
  let doy := (153 * mp + 2) / 5 + day - 1
  let doe := yoe * 365 + yoe / 4 - yoe / 100 + doy
  (((era * 146097 + doe : Nat) : Int)) - 719468

/-- The instant a parsed timestamp denotes, in seconds since the epoch
(local time minus the UTC offset); the comparison key pandas uses for
datetime min/max. -/
def dtInstant (d : PyDateTime) : Int :=
  daysFromCivil d.year d.month d.day * 86400 +
    (d.hour * 3600 + d.minute * 60 + d.second : Nat) -
    (if d.tzNeg then -((d.tzOff : Int) * 60) else (d.tzOff : Int) * 60)

/-- `series.min()` for datetimes: `none` (pandas `NaT`) on an empty series,
else the element with the smallest instant (first such). -/
def minByKey {α : Type} (key : α → Int) (l : List α) : Option α :=
  l.foldl
    (fun acc a =>
      match acc with
      | none => some a
      | some b => if key a < key b then some a else some b)
    none

/-- `series.max()` for datetimes: `none` (pandas `NaT`) on an empty series. -/
def maxByKey {α : Type} (key : α → Int) (l : List α) : Option α :=
  l.foldl
    (fun acc a =>
      match acc with
      | none => some a
      | some b => if key b < key a then some a else some b)
    none

/-- `series.mean()` over integers: `none` (pandas `NaN`) on an empty
series, else the rational mean. -/
def listMeanQ (l : List Int) : Option ℚ :=
  if l.isEmpty then none else some ((l.sum : ℚ) / (l.length : ℚ))

/-- `series.mean()` over naturals. -/
def natListMeanQ (l : List Nat) : Option ℚ :=
  if l.isEmpty then none else some (((l.sum : Int) : ℚ) / (l.length : ℚ))

/-- The distinct values of `l` in first-encounter order. -/
def firstSeenDistinct {α : Type} (beq : α → α → Bool) (l : List α) : List α :=
  l.foldl (fun acc a => if acc.any (beq a) then acc else acc ++ [a]) []

/-- Stable insertion by strictly greater count (ties keep existing order). -/
def insertByCountDesc {α : Type} (x : α × Nat) : List (α × Nat) → List (α × Nat)
  | [] => [x]
  | y :: ys => if y.2 < x.2 then x :: y :: ys else y :: insertByCountDesc x ys

/-- `series.value_counts()`: counts sorted by descending frequency; ties
are broken by first-encounter order (the documented tie-break of this
model; pandas leaves it unspecified). -/
def valueCounts {α : Type} (beq : α → α → Bool) (l : List α) : List (α × Nat) :=
  ((firstSeenDistinct beq l).map (fun a => (a, (l.filter (beq a)).length))).foldl
    (fun acc x => insertByCountDesc x acc) []

/-- The date/engagement columns of `generate_summary_stats`, fetched in
source evaluation order. -/
def summaryColsA (df : PandasDF) :
    Except PyError (List PyDateTime × List Int × List Int × List Bool) := do
  let ca ← colGet df "created_at" (fun r => r.created_at)
  let likes ← colGet df "likes" (fun r => r.likes)
  let rts ← colGet df "retweets" (fun r => r.retweets)
  let hm ← colGet df "has_media" (fun r => r.has_media)
  .ok (ca, likes, rts, hm)

/-- The content/timing columns of `generate_summary_stats`, fetched in
source evaluation order. -/
def summaryColsB (df : PandasDF) :
    Except PyError (List (List Json) × List (List Json) × List Nat × List Nat × List String) := do
  let urls ← colGet df "urls" (fun r => r.urls)
  let hts ← colGet df "hashtags" (fun r => r.hashtags)
  let tl ← colGet df "tweet_length" (fun r => r.tweet_length)
  let hrs ← colGet df "hour_of_day" (fun r => r.hour_of_day)
  let dys ← colGet df "day_of_week" (fun r => r.day_of_week)
  .ok (urls, hts, tl, hrs, dys)

/-- The statistics record built by `generate_summary_stats` (lines 252-274
of `archive_processor.py`), flattened. -/
structure SummaryStats where
  total_tweets : Nat
  date_start : Option PyDateTime
  date_end : Option PyDateTime
  total_likes : Int
  total_retweets : Int
  avg_likes : Option ℚ
  avg_retweets : Option ℚ
  tweets_with_media : Nat
  tweets_with_urls : Nat
  most_common_hashtags : List (Json × Nat)
  avg_tweet_length : Option ℚ
  most_active_hours : List (Nat × Nat)
  most_active_days : List (String × Nat)

/-- `TwitterArchivePreprocessor.generate_summary_stats` (lines 250-280):
first column access on a column-less (empty) frame raises `KeyError`;
otherwise the aggregates (`.explode()` concatenates the per-row lists,
`value_counts().head(n)` as above). -/
def generate_summary_stats (df : PandasDF) : Except PyError SummaryStats := do
  let (ca, likes, rts, hasMedia) ← summaryColsA df
  let (urls, hts, tlens, hours, days) ← summaryColsB df
  .ok
    { total_tweets := df.rows.length
      date_start := minByKey dtInstant ca
      date_end := maxByKey dtInstant ca
      total_likes := likes.sum
      total_retweets := rts.sum
      avg_likes := listMeanQ likes
      avg_retweets := listMeanQ rts
      tweets_with_media := (hasMedia.filter id).length
      tweets_with_urls := (urls.map List.length).sum
      most_common_hashtags := (valueCounts jsonBEq hts.flatten).take 10
      avg_tweet_length := natListMeanQ tlens
      most_active_hours := (valueCounts (fun a b : Nat => a = b) hours).take 5
      most_active_days := valueCounts (fun a b : String => a = b) days }

/-- The `MediaFile` dataclass of `media_handler.py`, restricted to the
fields `generate_media_report` reads. -/
structure MediaFileM where
  file_id : String
  media_type : String
  size_bytes : Nat
  hash_md5 : String
deriving DecidableEq

/-- One element of the report's `duplicate_files` list. -/
structure DupEntry where
  original : String
  duplicate : String
deriving DecidableEq

/-- First-match association lookup in the `hash_map` dict. -/
def strAssocGet : List (String × String) → String → Option String
  | [], _ => none
  | (k, v) :: rest, key => if key = k then some v else strAssocGet rest key

/-- The duplicate-detection loop of `generate_media_report` (lines 163-172
of `media_handler.py`): walk the inventory in insertion order, keeping per
content hash the first-seen `file_id`; every later file with a seen hash
yields a pair (original := first-seen, duplicate := this file). -/
def findDupsGo : List MediaFileM → List (String × String) → List DupEntry
  | [], _ => []
  | m :: ms, hm =>
    match strAssocGet hm m.hash_md5 with
    | some orig => ⟨orig, m.file_id⟩ :: findDupsGo ms hm
    | none => findDupsGo ms ((m.hash_md5, m.file_id) :: hm)

/-- The `duplicate_files` list of the media report. -/
def duplicateFiles (inv : List MediaFileM) : List DupEntry := findDupsGo inv []

/-- Ordered dict increment (`report["media_types"][t] += 1` with insertion
order preserved). -/
def bumpCount : List (String × Nat) → String → List (String × Nat)
  | [], k => [(k, 1)]
  | (k0, n) :: rest, k =>
    if k = k0 then (k0, n + 1) :: rest else (k0, n) :: bumpCount rest k

/-- The per-MIME-type counts of the media report. -/
def mediaTypeCounts (inv : List MediaFileM) : List (String × Nat) :=
  inv.foldl (fun acc m => bumpCount acc m.media_type) []

/-- The report written by `MediaHandler.generate_media_report`
(lines 148-180 of `media_handler.py`). -/
structure MediaReport where
  total_files : Nat
  total_size_bytes : Nat
  media_types : List (String × Nat)
  duplicate_files : List DupEntry

/-- `MediaHandler.generate_media_report` over the inventory in insertion
order (`self.media_inventory.values()`; the inventory is keyed by
`file_id`, so the `file_id`s are distinct). -/
def generate_media_report (inv : List MediaFileM) : MediaReport :=
  ⟨inv.length, (inv.map (fun m => m.size_bytes)).sum, mediaTypeCounts inv, duplicateFiles inv⟩

/-- Description of one media item of a well-formed entry (each field
optional, as in the source data). -/
structure MediaSpec where
  mtype : Option (List Char)
  murl : Option (List Char)
  murlHttps : Option (List Char)

/-- Description of a well-formed archive entry: which optional fields are
present and with what values.  `mkEntry` realises it as a JSON value. -/
structure EntrySpec where
  wrap : Bool
  idStr : Option (List Char)
  createdAt : List Char
  fullText : Option (List Char)
  plainText : Option (List Char)
  fav : Option Json
  rt : Option Json
  hashtags : List (Option (List Char))
  urls : List (Option (List Char))
  media : List MediaSpec
  retweeted : Option Json
  convId : Option (List Char)
  replyTo : Option (List Char)
  lang : Option (List Char)

/-- A key/value pair present only when the optional value is. -/
def optEntry (k : String) (v : Option Json) : List (String × Json) :=
  match v with
  | some j => [(k, j)]
  | none => []

/-- One hashtag entity object. -/
def mkHtObj (o : Option (List Char)) : Json := .obj (optEntry "text" (o.map .str))

/-- One url entity object. -/
def mkUrlObj (o : Option (List Char)) : Json := .obj (optEntry "expanded_url" (o.map .str))

/-- One media entity object. -/
def mkMediaObj (m : MediaSpec) : Json :=
  .obj (optEntry "type" (m.mtype.map .str) ++
        optEntry "media_url" (m.murl.map .str) ++
        optEntry "media_url_https" (m.murlHttps.map .str))

/-- The entities object described by `s`. -/
def entitiesObjOf (s : EntrySpec) : Json :=
  .obj
    [("hashtags", .arr (s.hashtags.map mkHtObj)),
     ("urls", .arr (s.urls.map mkUrlObj)),
     ("media", .arr (s.media.map mkMediaObj))]

/-- The (unwrapped) tweet object described by `s`. -/
def mkTweetObj (s : EntrySpec) : Json :=
  .obj (optEntry "id_str" (s.idStr.map .str) ++
        [("created_at", .str s.createdAt)] ++
        optEntry "full_text" (s.fullText.map .str) ++
        optEntry "text" (s.plainText.map .str) ++
        optEntry "favorite_count" s.fav ++
        optEntry "retweet_count" s.rt ++
        [("entities", entitiesObjOf s)] ++
        optEntry "retweeted_status" s.retweeted ++
        optEntry "conversation_id_str" (s.convId.map .str) ++
        optEntry "in_reply_to_user_id_str" (s.replyTo.map .str) ++
        optEntry "lang" (s.lang.map .str))

/-- The entry described by `s`, optionally wrapped under the `"tweet"`
container key. -/
def mkEntry (s : EntrySpec) : Json :=
  if s.wrap then .obj [("tweet", mkTweetObj s)] else mkTweetObj s

/-- Engagement-count source values covered by the spec's coercion rule:
absent, null, an integer, or a nonempty integer-numeral string. -/
def countSpecOk (o : Option Json) : Bool :=
  match o with
  | none => true
  | some .null => true
  | some (.num _) => true
  | some (.str s) => !s.isEmpty && (parseIntStr s).isSome
  | some _ => false

/-- Modelled from the spec: the engagement-count coercion the claims
describe — null/absent become 0, integers pass through, numeral strings
are parsed. -/
def countSpecVal (o : Option Json) : Int :=
  match o with
  | none => 0
  | some .null => 0
  | some (.num n) => n
  | some (.str s) => (parseIntStr s).getD 0
  | some _ => 0

/-- The source text of an entry: prefer `full_text`, fall back to `text`,
then to the empty string. -/
def textOf (s : EntrySpec) : List Char :=
  match s.fullText with
  | some t => t
  | none => s.plainText.getD []

/-- The media url the code selects for one item: `media_url`, or, when that
is falsy, `media_url_https` (each defaulting to the empty string). -/
def mediaUrlOf (m : MediaSpec) : Json :=
  let u1 := (m.murl.map Json.str).getD (.str [])
  if pyTruthy u1 then u1 else (m.murlHttps.map Json.str).getD (.str [])

/-- The media element the code builds for one described item. -/
def mediaRefOf (findLocal : List Char → Option (List Char)) (m : MediaSpec) : TweetMedia :=
  { type := (m.mtype.map Json.str).getD (.str "unknown".data)
    url := mediaUrlOf m
    local_path :=
      match mediaUrlOf m with
      | .str s => if s.isEmpty then none else findLocal s
      | _ => none }

/-- The `Tweet` a well-formed described entry parses to. -/
def expectedTweet (findLocal : List Char → Option (List Char)) (s : EntrySpec)
    (tid : Json) (d : PyDateTime) : Tweet :=
  { id := tid
    text := archiveCleanText (textOf s)
    created_at := d
    likes := countSpecVal s.fav
    retweets := countSpecVal s.rt
    hashtags := s.hashtags.map (fun o => .str (o.getD []))
    urls := s.urls.map (fun o => .str (o.getD []))
    media := s.media.map (mediaRefOf findLocal)
    is_retweet := pyTruthy (s.retweeted.getD .null)
    conversation_id := .str (s.convId.getD [])
    in_reply_to_user_id := (s.replyTo.map Json.str).getD .null
    lang := (s.lang.map Json.str).getD (.str "unknown".data) }

/-- The list of characters `mediaUrlOf` wraps. -/
def mediaUrlStr (m : MediaSpec) : List Char :=
  let a := m.murl.getD []
  if a.isEmpty then m.murlHttps.getD [] else a

/-- A complete, valid sample entry (used to instantiate the universally
quantified theorems). -/
def c7spec : EntrySpec :=
  { wrap := true
    idStr := some "123456789".data
    createdAt := "Wed Oct 10 20:19:24 +0000 2018".data
    fullText := some "Hello world!".data
    plainText := none
    fav := some (.num 5)
    rt := some (.num 2)
    hashtags := [some "test".data, some "ai".data]
    urls := [some "https://example.com".data]
    media := []
    retweeted := none
    convId := none
    replyTo := none
    lang := some "en".data }

/-- The sample entry with no id field. -/
def c5spec : EntrySpec := { c7spec with idStr := none }

/-- The sample entry whose source text contains a URL. -/
def c4spec : EntrySpec := { c7spec with fullText := some "see https://x.co".data }

/-- A concrete inventory: two identical files (same hash, different names)
and one unique file. -/
def c9inv : List MediaFileM :=
  [⟨"a", "image/jpeg", 10, "h1"⟩, ⟨"b", "image/jpeg", 10, "h1"⟩,
   ⟨"c", "image/png", 5, "h3"⟩]

/-- A concrete input containing one emoji character (U+1F600). -/
def c10text : List Char := ['h', 'i', ' ', Char.ofNat 0x1F600]

theorem assocGet_nil (k : String) : assocGet [] k = none := rfl

theorem assocGet_cons_of_ne (k k' : String) (j : Json) (rest : List (String × Json))
    (h : ¬ k' = k) : assocGet ((k, j) :: rest) k' = assocGet rest k' := by
  simp [assocGet, h]

theorem assocGet_cons_self (k : String) (j : Json) (rest : List (String × Json)) :
    assocGet ((k, j) :: rest) k = some j := by
  simp [assocGet]

theorem assocGet_optEntry_append_of_ne (k k' : String) (v : Option Json)
    (rest : List (String × Json)) (h : ¬ k' = k) :
    assocGet (optEntry k v ++ rest) k' = assocGet rest k' := by
  cases v <;> simp [optEntry, assocGet, h]

theorem assocGet_optEntry_append_eq (k : String) (v : Option Json)
    (rest : List (String × Json)) :
    assocGet (optEntry k v ++ rest) k = v.orElse (fun _ => assocGet rest k) := by
  cases v <;> simp [optEntry, assocGet, Option.orElse]

theorem assocGet_optEntry_append (k k' : String) (v : Option Json)
    (rest : List (String × Json)) :
    assocGet (optEntry k v ++ rest) k' =
      if k' = k then v.orElse (fun _ => assocGet rest k') else assocGet rest k' := by
  cases v <;> simp [optEntry, assocGet, Option.orElse]

theorem assocGet_optEntry (k k' : String) (v : Option Json) :
    assocGet (optEntry k v) k' = if k' = k then v else none := by
  cases v <;> simp [optEntry, assocGet]

theorem mkTweet_get_fav (s : EntrySpec) (d : Json) :
    pyDictGet (mkTweetObj s) "favorite_count" d = .ok (s.fav.getD d) := by
  simp [mkTweetObj, pyDictGet, assocGet_optEntry_append, assocGet_optEntry, assocGet]

theorem ebind_ok {ε α β : Type} (a : α) (f : α → Except ε β) :
    (Bind.bind (Except.ok a) f : Except ε β) = f a := rfl

theorem epure_eq {ε α : Type} (a : α) : (Pure.pure a : Except ε α) = Except.ok a := rfl

theorem mkTweet_get_rt (s : EntrySpec) (d : Json) :
    pyDictGet (mkTweetObj s) "retweet_count" d = .ok (s.rt.getD d) := by
  simp [mkTweetObj, pyDictGet, assocGet_optEntry_append, assocGet_optEntry, assocGet]

theorem pyInt_or_zero (o : Option Json) (h : countSpecOk o = true) :
    pyInt (if pyTruthy (o.getD (.num 0)) then o.getD (.num 0) else .num 0) =
      .ok (countSpecVal o) := by
  match o with
  | none => rfl
  | some .null => rfl
  | some (.num n) =>
    by_cases hn : n = 0
    · subst hn; rfl
    · simp [pyTruthy, pyInt, countSpecVal, hn]
  | some (.str t) =>
    simp only [countSpecOk, Bool.and_eq_true, Option.isSome_iff_exists] at h
    obtain ⟨h1, v, hv⟩ := h
    simp [pyTruthy, pyInt, countSpecVal, h1, hv]
  | some (.bool b) => simp [countSpecOk] at h
  | some (.arr xs) => simp [countSpecOk] at h
  | some (.obj kvs) => simp [countSpecOk] at h

theorem extractCounts_mkTweet (s : EntrySpec)
    (hF : countSpecOk s.fav = true) (hR : countSpecOk s.rt = true) :
    extractCounts (mkTweetObj s) = .ok (countSpecVal s.fav, countSpecVal s.rt) := by
  simp [extractCounts, mkTweet_get_fav, mkTweet_get_rt, ebind_ok, epure_eq,
    pyInt_or_zero s.fav hF, pyInt_or_zero s.rt hR]


theorem mkTweet_get_created (s : EntrySpec) (d : Json) :
    pyDictGet (mkTweetObj s) "created_at" d = .ok (.str s.createdAt) := by
  simp [mkTweetObj, pyDictGet, assocGet_optEntry_append, assocGet_optEntry, assocGet]

theorem extractDate_mkTweet (s : EntrySpec) (d : PyDateTime)
    (hD : strptimeTwitter s.createdAt = some d) :
    extractDate (mkTweetObj s) = .ok d := by
  cases hca : s.createdAt with
  | nil =>
    rw [hca, show strptimeTwitter ([] : List Char) = none from rfl] at hD
    exact Option.noConfusion hD
  | cons c cs =>
    rw [hca] at hD
    simp [extractDate, mkTweet_get_created, ebind_ok, hca, pyTruthy, hD]

theorem mkTweet_get_text (s : EntrySpec) (d : Json) :
    pyDictGet (mkTweetObj s) "text" d = .ok ((s.plainText.map Json.str).getD d) := by
  simp [mkTweetObj, pyDictGet, assocGet_optEntry_append, assocGet_optEntry, assocGet]

theorem mkTweet_get_fullText (s : EntrySpec) (d : Json) :
    pyDictGet (mkTweetObj s) "full_text" d = .ok ((s.fullText.map Json.str).getD d) := by
  simp [mkTweetObj, pyDictGet, assocGet_optEntry_append, assocGet_optEntry, assocGet]

theorem extractText_mkTweet (s : EntrySpec) :
    extractText (mkTweetObj s) = .ok (archiveCleanText (textOf s)) := by
  simp only [extractText, mkTweet_get_text, mkTweet_get_fullText, ebind_ok, textOf]
  cases hf : s.fullText <;> cases hp : s.plainText <;> simp [hf, hp]

theorem mkTweet_get_entities (s : EntrySpec) (d : Json) :
    pyDictGet (mkTweetObj s) "entities" d = .ok (entitiesObjOf s) := by
  simp [mkTweetObj, pyDictGet, assocGet_optEntry_append, assocGet_optEntry, assocGet]

theorem entGet_hashtags (s : EntrySpec) (d : Json) :
    pyDictGet (entitiesObjOf s) "hashtags" d = .ok (.arr (s.hashtags.map mkHtObj)) := by
  simp [entitiesObjOf, pyDictGet, assocGet]

theorem entGet_urls (s : EntrySpec) (d : Json) :
    pyDictGet (entitiesObjOf s) "urls" d = .ok (.arr (s.urls.map mkUrlObj)) := by
  simp [entitiesObjOf, pyDictGet, assocGet]

theorem entGet_media (s : EntrySpec) (d : Json) :
    pyDictGet (entitiesObjOf s) "media" d = .ok (.arr (s.media.map mkMediaObj)) := by
  simp [entitiesObjOf, pyDictGet, assocGet]

theorem pyDictGet_mkHtObj (o : Option (List Char)) :
    pyDictGet (mkHtObj o) "text" (.str []) = .ok (.str (o.getD [])) := by
  cases o <;> simp [mkHtObj, pyDictGet, optEntry, assocGet]

theorem pyDictGet_mkUrlObj (o : Option (List Char)) :
    pyDictGet (mkUrlObj o) "expanded_url" (.str []) = .ok (.str (o.getD [])) := by
  cases o <;> simp [mkUrlObj, pyDictGet, optEntry, assocGet]

theorem mapHtObj (hs : List (Option (List Char))) :
    exceptMapList (fun h => pyDictGet h "text" (.str [])) (hs.map mkHtObj) =
      .ok (hs.map (fun o => .str (o.getD []))) := by
  induction hs with
  | nil => rfl
  | cons o rest ih => simp [exceptMapList, pyDictGet_mkHtObj, ih]

theorem mapUrlObj (us : List (Option (List Char))) :
    exceptMapList (fun u => pyDictGet u "expanded_url" (.str [])) (us.map mkUrlObj) =
      .ok (us.map (fun o => .str (o.getD []))) := by
  induction us with
  | nil => rfl
  | cons o rest ih => simp [exceptMapList, pyDictGet_mkUrlObj, ih]

theorem extractHashtags_mkTweet (s : EntrySpec) :
    extractHashtags (mkTweetObj s) = .ok (s.hashtags.map (fun o => .str (o.getD []))) := by
  simp only [extractHashtags, mkTweet_get_entities, entGet_hashtags, ebind_ok, pyAsArr]
  exact mapHtObj s.hashtags

theorem extractUrls_mkTweet (s : EntrySpec) :
    extractUrls (mkTweetObj s) = .ok (s.urls.map (fun o => .str (o.getD []))) := by
  simp only [extractUrls, mkTweet_get_entities, entGet_urls, ebind_ok, pyAsArr]
  exact mapUrlObj s.urls

theorem ebind_ite {e a b : Type} (c : Prop) [Decidable c] (x y : Except e a)
    (f : a → Except e b) :
    (Bind.bind (if c then x else y) f) = if c then Bind.bind x f else Bind.bind y f := by
  split <;> rfl

theorem mediaUrlOf_eq (m : MediaSpec) : mediaUrlOf m = .str (mediaUrlStr m) := by
  cases m.murl <;> cases m.murlHttps <;>
    simp [mediaUrlOf, mediaUrlStr, pyTruthy] <;> split <;> simp

theorem pyFindLocal_str (findLocal : List Char → Option (List Char)) (s : List Char) :
    pyFindLocal findLocal (.str s) = .ok (if s.isEmpty then none else findLocal s) := by
  by_cases h : s.isEmpty <;> simp [pyFindLocal, pyTruthy, h]

theorem mkMediaObj_get_type (m : MediaSpec) (d : Json) :
    pyDictGet (mkMediaObj m) "type" d = .ok ((m.mtype.map Json.str).getD d) := by
  simp [mkMediaObj, pyDictGet, assocGet_optEntry_append, assocGet_optEntry, assocGet]

theorem mkMediaObj_get_murl (m : MediaSpec) (d : Json) :
    pyDictGet (mkMediaObj m) "media_url" d = .ok ((m.murl.map Json.str).getD d) := by
  simp [mkMediaObj, pyDictGet, assocGet_optEntry_append, assocGet_optEntry, assocGet]

theorem mkMediaObj_get_murlHttps (m : MediaSpec) (d : Json) :
    pyDictGet (mkMediaObj m) "media_url_https" d = .ok ((m.murlHttps.map Json.str).getD d) := by
  simp [mkMediaObj, pyDictGet, assocGet_optEntry_append, assocGet_optEntry, assocGet]

theorem extractMediaItem_mk (findLocal : List Char → Option (List Char)) (m : MediaSpec) :
    extractMediaItem findLocal (mkMediaObj m) = .ok (mediaRefOf findLocal m) := by
  simp only [extractMediaItem, mkMediaObj_get_type, mkMediaObj_get_murl,
    mkMediaObj_get_murlHttps, ebind_ok]
  rw [show (if pyTruthy ((m.murl.map Json.str).getD (.str [])) then
        (m.murl.map Json.str).getD (.str [])
      else (m.murlHttps.map Json.str).getD (.str [])) = mediaUrlOf m from rfl]
  rw [mediaUrlOf_eq, pyFindLocal_str, ebind_ok]
  simp [mediaRefOf, mediaUrlOf_eq]

theorem mkTweet_get_extended (s : EntrySpec) (d : Json) :
    pyDictGet (mkTweetObj s) "extended_entities" d = .ok d := by
  simp [mkTweetObj, pyDictGet, assocGet_optEntry_append, assocGet_optEntry, assocGet]

theorem extractMedia_mkTweet (findLocal : List Char → Option (List Char)) (s : EntrySpec) :
    extractMedia findLocal (mkTweetObj s) = .ok (s.media.map (mediaRefOf findLocal)) := by
  have hmap : exceptMapList (extractMediaItem findLocal) (s.media.map mkMediaObj) =
      .ok (s.media.map (mediaRefOf findLocal)) := by
    induction s.media with
    | nil => rfl
    | cons m rest ih => simp [exceptMapList, extractMediaItem_mk, ih]
  simp only [extractMedia, mkTweet_get_entities, mkTweet_get_extended, entGet_media,
    ebind_ok, pyAsArr]
  simp only [show pyDictGet (Json.obj []) "media" (Json.arr []) = .ok (.arr []) from rfl,
    ebind_ok, pyAsArr, List.append_nil]
  exact hmap

theorem extractTail_mkTweet (s : EntrySpec) :
    extractTail (mkTweetObj s) =
      .ok (pyTruthy (s.retweeted.getD .null), .str (s.convId.getD []),
           (s.replyTo.map Json.str).getD .null,
           (s.lang.map Json.str).getD (.str "unknown".data)) := by
  simp [extractTail, mkTweetObj, pyDictGet, assocGet_optEntry_append, assocGet_optEntry,
    assocGet, ebind_ok, epure_eq]

theorem processFields_mkTweet (findLocal : List Char → Option (List Char)) (s : EntrySpec)
    (tid : Json) (d : PyDateTime)
    (hD : strptimeTwitter s.createdAt = some d)
    (hF : countSpecOk s.fav = true) (hR : countSpecOk s.rt = true) :
    processFields findLocal (mkTweetObj s) tid = .ok (expectedTweet findLocal s tid d) := by
  simp [processFields, extractDate_mkTweet s d hD, extractMedia_mkTweet,
    extractCounts_mkTweet s hF hR, extractText_mkTweet, extractHashtags_mkTweet,
    extractUrls_mkTweet, extractTail_mkTweet, ebind_ok, epure_eq, expectedTweet]

theorem unwrapAndId_mkEntry (s : EntrySpec) :
    unwrapAndId (mkEntry s) =
      .ok (mkTweetObj s, (s.idStr.map Json.str).getD (.str "unknown".data)) := by
  cases hw : s.wrap <;>
    simp [mkEntry, unwrapAndId, mkTweetObj, assocGet, assocGet_optEntry_append,
      assocGet_optEntry, hw]

theorem process_tweet_mkEntry (findLocal : List Char → Option (List Char)) (s : EntrySpec)
    (d : PyDateTime)
    (hD : strptimeTwitter s.createdAt = some d)
    (hF : countSpecOk s.fav = true) (hR : countSpecOk s.rt = true) :
    process_tweet findLocal (mkEntry s) =
      .ok (some (expectedTweet findLocal s
        ((s.idStr.map Json.str).getD (.str "unknown".data)) d)) := by
  simp [process_tweet, unwrapAndId_mkEntry,
    processFields_mkTweet findLocal s _ d hD hF hR]

/-- C1: the claim says an entry with an absent or unparsable timestamp still
yields a Record whose `created_at` is the current UTC time.  The code
instead drops such entries: `archive_processor.py` never imports `pytz`, so
`datetime.now(pytz.UTC)` raises `NameError`, which the outer handler turns
into `None`.  This theorem evaluates the code at both failing inputs: an
entry with no `created_at`, and one with an unparsable `created_at`. -/
theorem c1_timestamp_fallback_drops_entry :
    process_tweet (fun _ => none)
      (.obj [("tweet", .obj [("id_str", .str "t1".data)])]) = .ok none ∧
    process_tweet (fun _ => none)
      (.obj [("tweet", .obj [("id_str", .str "t1".data),
                             ("created_at", .str "not a date".data)])]) = .ok none :=
  ⟨rfl, rfl⟩

/-- C3: the claim says `parse` never raises for any raw entry, including
non-objects.  For an entry that is not a dict (or wraps a non-dict), the
`except` handler references the unassigned local `tweet_id` and itself
raises `NameError`, which escapes the call.  This theorem evaluates the
code at three such inputs. -/
theorem c3_nonobject_entry_raises :
    process_tweet (fun _ => none) (.str "oops".data) = .error (.nameError "tweet_id") ∧
    process_tweet (fun _ => none) (.arr []) = .error (.nameError "tweet_id") ∧
    process_tweet (fun _ => none) (.obj [("tweet", .num 5)]) =
      .error (.nameError "tweet_id") :=
  ⟨rfl, rfl, rfl⟩

/-- C2 counterexample: `summarize` on the empty collection raises rather
than returning zero statistics — a DataFrame built from an empty record
list has no columns, so the first column access raises
`KeyError("created_at")`. -/
theorem c2_counterexample :
    generate_summary_stats (mkSummaryDF []) = .error (.keyError "created_at") := rfl

/-- C2 amended: on an empty collection that retains the column schema,
`summarize` raises no exception and returns total 0, likes and retweets
sums 0, and every mean as the no-data marker (pandas `NaN`, modelled as
`none`). -/
theorem c2_amended_empty_schema_stats :
    ∃ st : SummaryStats, generate_summary_stats ⟨summaryCols, []⟩ = .ok st ∧
      st.total_tweets = 0 ∧ st.total_likes = 0 ∧ st.total_retweets = 0 ∧
      st.avg_likes = none ∧ st.avg_retweets = none ∧ st.avg_tweet_length = none ∧
      st.date_start = none ∧ st.date_end = none ∧ st.most_common_hashtags = [] :=
  ⟨_, rfl, rfl, rfl, rfl, rfl, rfl, rfl, rfl, rfl, rfl⟩

/-- C4 counterexample: the Record's text is NOT the Text Normalizer's
default-option output.  `process_tweet` uses the archive processor's own
`clean_text` (three HTML entities plus whitespace collapse), so a URL in
the source text survives into the Record, while `TextCleaner.clean_text`
with defaults removes it. -/
theorem c4_counterexample :
    Except.map (Option.map Tweet.text)
        (process_tweet (fun _ => none) (mkEntry c4spec)) =
      .ok (some "see https://x.co".data) ∧
    tcClean "see https://x.co".data = "see".data ∧
    "see https://x.co".data ≠ "see".data :=
  ⟨rfl, by decide, by decide⟩

/-- C4 amended: for every well-formed entry, the Record's text equals the
archive processor's own `clean_text` — decoding `&amp; &lt; &gt;` and
collapsing whitespace — applied to the extended/full text field, falling
back to the plain text field, then to the empty string. -/
theorem c4_amended_text_uses_archive_clean
    (findLocal : List Char → Option (List Char)) (s : EntrySpec) (d : PyDateTime)
    (hD : strptimeTwitter s.createdAt = some d)
    (hF : countSpecOk s.fav = true) (hR : countSpecOk s.rt = true) :
    ∃ t : Tweet, process_tweet findLocal (mkEntry s) = .ok (some t) ∧
      t.text = archiveCleanText (textOf s) :=
  ⟨_, process_tweet_mkEntry findLocal s d hD hF hR, rfl⟩

/-- C4 amended witness: the amended theorem applied at a concrete entry. -/
theorem c4_amended_witness :
    ∃ t : Tweet, process_tweet (fun _ => none) (mkEntry c4spec) = .ok (some t) ∧
      t.text = archiveCleanText (textOf c4spec) :=
  c4_amended_text_uses_archive_clean (fun _ => none) c4spec
    ⟨2018, 10, 10, 20, 19, 24, false, 0⟩ (by decide) (by decide) (by decide)

/-- C5 counterexample: an entry with no id field parses to a Record whose
id is the string `"unknown"`, not the empty string the claim states. -/
theorem c5_counterexample :
    Except.map (Option.map Tweet.id)
        (process_tweet (fun _ => none) (mkEntry c5spec)) =
      .ok (some (.str "unknown".data)) ∧
    ¬ Except.map (Option.map Tweet.id)
        (process_tweet (fun _ => none) (mkEntry c5spec)) =
      .ok (some (.str [])) := by
  constructor
  · rfl
  · intro h
    rw [show Except.map (Option.map Tweet.id)
          (process_tweet (fun _ => none) (mkEntry c5spec)) =
        .ok (some (.str "unknown".data)) from rfl] at h
    simp only [Except.ok.injEq, Option.some.injEq, Json.str.injEq] at h
    exact (by decide : ¬ "unknown".data = ([] : List Char)) h

/-- C5 amended: for every well-formed entry whose source contains no id
field, parse produces a Record whose id is the string `"unknown"`. -/
theorem c5_amended_absent_id_is_unknown
    (findLocal : List Char → Option (List Char)) (s : EntrySpec) (d : PyDateTime)
    (hid : s.idStr = none)
    (hD : strptimeTwitter s.createdAt = some d)
    (hF : countSpecOk s.fav = true) (hR : countSpecOk s.rt = true) :
    ∃ t : Tweet, process_tweet findLocal (mkEntry s) = .ok (some t) ∧
      t.id = .str "unknown".data :=
  ⟨_, process_tweet_mkEntry findLocal s d hD hF hR, by simp [expectedTweet, hid]⟩

/-- C5 amended witness: the amended theorem applied at a concrete entry. -/
theorem c5_amended_witness :
    ∃ t : Tweet, process_tweet (fun _ => none) (mkEntry c5spec) = .ok (some t) ∧
      t.id = .str "unknown".data :=
  c5_amended_absent_id_is_unknown (fun _ => none) c5spec
    ⟨2018, 10, 10, 20, 19, 24, false, 0⟩ rfl (by decide) (by decide) (by decide)

/-- C7: for every valid (well-formed) entry, parse produces a Record whose
id, likes and retweets equal the source values exactly (after the integer
coercion, null/absent becoming 0), and whose hashtags and urls are the
per-item projections of the source entity sub-lists, preserving order and
length. -/
theorem c7_parse_preserves_fields
    (findLocal : List Char → Option (List Char)) (s : EntrySpec) (i : List Char)
    (d : PyDateTime)
    (hid : s.idStr = some i)
    (hD : strptimeTwitter s.createdAt = some d)
    (hF : countSpecOk s.fav = true) (hR : countSpecOk s.rt = true) :
    ∃ t : Tweet, process_tweet findLocal (mkEntry s) = .ok (some t) ∧
      t.id = .str i ∧
      t.likes = countSpecVal s.fav ∧
      t.retweets = countSpecVal s.rt ∧
      t.hashtags = s.hashtags.map (fun o => .str (o.getD [])) ∧
      t.urls = s.urls.map (fun o => .str (o.getD [])) ∧
      t.hashtags.length = s.hashtags.length ∧
      t.urls.length = s.urls.length :=
  ⟨_, process_tweet_mkEntry findLocal s d hD hF hR, by simp [expectedTweet, hid],
    rfl, rfl, rfl, rfl, by simp [expectedTweet], by simp [expectedTweet]⟩

/-- C7 witness: the theorem applied at a concrete valid entry. -/
theorem c7_witness :
    ∃ t : Tweet, process_tweet (fun _ => none) (mkEntry c7spec) = .ok (some t) ∧
      t.id = .str "123456789".data ∧
      t.likes = countSpecVal c7spec.fav ∧
      t.retweets = countSpecVal c7spec.rt ∧
      t.hashtags = c7spec.hashtags.map (fun o => .str (o.getD [])) ∧
      t.urls = c7spec.urls.map (fun o => .str (o.getD [])) ∧
      t.hashtags.length = c7spec.hashtags.length ∧
      t.urls.length = c7spec.urls.length :=
  c7_parse_preserves_fields (fun _ => none) c7spec "123456789".data
    ⟨2018, 10, 10, 20, 19, 24, false, 0⟩ rfl (by decide) (by decide) (by decide)

/-- C8: hashtag normalization applies the camel-case splitter element-wise
(preserving list length and order), and the splitter maps a camel-case tag
to the lowercase space-separated word sequence: uppercase runs of length
2+ followed by an uppercase-lowercase pair, a digit, a non-word character,
or end-of-string stay together as one acronym token, and digit runs become
their own tokens. -/
theorem c8_normalize_hashtags_camel_case :
    (∀ tags : List (List Char),
      normalize_hashtags tags = tags.map split_camel_case ∧
      (normalize_hashtags tags).length = tags.length) ∧
    split_camel_case "MachineLearning".data = "machine learning".data ∧
    split_camel_case "#MachineLearning".data = "machine learning".data ∧
    split_camel_case "HTTPServer".data = "http server".data ∧
    split_camel_case "NASA".data = "nasa".data ∧
    split_camel_case "HTML5".data = "html 5".data ∧
    split_camel_case "Top10Tips".data = "top 10 tips".data ∧
    split_camel_case "ABC-Def".data = "abc def".data := by
  refine ⟨fun tags => ⟨rfl, ?_⟩, ?_, ?_, ?_, ?_, ?_, ?_, ?_⟩
  · simp [normalize_hashtags]
  all_goals decide

theorem strAssocGet_mem (hm : List (String × String)) (k v : String)
    (h : strAssocGet hm k = some v) : (k, v) ∈ hm := by
  induction hm with
  | nil => exact absurd h (by simp [strAssocGet])
  | cons p rest ih =>
    rw [strAssocGet] at h
    by_cases hk : k = p.1
    · simp only [hk, if_pos rfl] at h
      cases p
      simp_all
    · simp only [if_neg hk] at h
      exact List.mem_cons_of_mem _ (ih h)

theorem findDupsGo_mem_of_seen (ms : List MediaFileM) :
    ∀ (hm : List (String × String)) (j : Nat) (hj : j < ms.length) (o : String),
      strAssocGet hm (ms.get ⟨j, hj⟩).hash_md5 = some o →
      DupEntry.mk o (ms.get ⟨j, hj⟩).file_id ∈ findDupsGo ms hm := by
  induction ms with
  | nil => intro hm j hj o ho; exact absurd hj (by simp)
  | cons m ms ih =>
    intro hm j hj o ho
    cases j with
    | zero =>
      simp only [List.get] at ho ⊢
      simp [findDupsGo, ho]
    | succ j' =>
      have hj' : j' < ms.length := by simpa using hj
      have hget : (m :: ms).get ⟨j' + 1, hj⟩ = ms.get ⟨j', hj'⟩ := rfl
      rw [hget] at ho ⊢
      cases hseen : strAssocGet hm m.hash_md5 with
      | some o2 =>
        simp only [findDupsGo, hseen]
        exact List.mem_cons_of_mem _ (ih hm j' hj' o ho)
      | none =>
        simp only [findDupsGo, hseen]
        apply ih
        by_cases heq : (ms.get ⟨j', hj'⟩).hash_md5 = m.hash_md5
        · rw [heq] at ho; rw [ho] at hseen; exact Option.noConfusion hseen
        · simp only [strAssocGet, if_neg heq]
          exact ho

theorem findDupsGo_mem_first (ms : List MediaFileM) :
    ∀ (hm : List (String × String)) (j : Nat) (hj : j < ms.length),
      strAssocGet hm (ms.get ⟨j, hj⟩).hash_md5 = none →
      (∃ i, ∃ hi : i < ms.length, i < j ∧
        (ms.get ⟨i, hi⟩).hash_md5 = (ms.get ⟨j, hj⟩).hash_md5) →
      ∃ m0, ms.find? (fun x => x.hash_md5 == (ms.get ⟨j, hj⟩).hash_md5) = some m0 ∧
        DupEntry.mk m0.file_id (ms.get ⟨j, hj⟩).file_id ∈ findDupsGo ms hm := by
  induction ms with
  | nil => intro hm j hj _ _; exact absurd hj (by simp)
  | cons m ms ih =>
    intro hm j hj hnone hcol
    cases j with
    | zero =>
      obtain ⟨i, hi, hlt, _⟩ := hcol
      exact absurd hlt (by omega)
    | succ j' =>
      have hj' : j' < ms.length := by simpa using hj
      have hget : (m :: ms).get ⟨j' + 1, hj⟩ = ms.get ⟨j', hj'⟩ := rfl
      rw [hget] at hnone hcol ⊢
      by_cases hEq : m.hash_md5 = (ms.get ⟨j', hj'⟩).hash_md5
      · refine ⟨m, ?_, ?_⟩
        · simp [List.find?, hEq]
        · have hs : strAssocGet hm m.hash_md5 = none := by rw [hEq]; exact hnone
          simp only [findDupsGo, hs]
          apply findDupsGo_mem_of_seen
          simp only [strAssocGet]
          rw [if_pos hEq.symm]
      · obtain ⟨i, hi, hlt, hih⟩ := hcol
        cases i with
        | zero => exact absurd hih hEq
        | succ i' =>
          have hi' : i' < ms.length := by simpa using hi
          have hgi : (m :: ms).get ⟨i' + 1, hi⟩ = ms.get ⟨i', hi'⟩ := rfl
          rw [hgi] at hih
          have hlt' : i' < j' := by omega
          have hfind :
              List.find? (fun x => x.hash_md5 == (ms.get ⟨j', hj'⟩).hash_md5) (m :: ms) =
              List.find? (fun x => x.hash_md5 == (ms.get ⟨j', hj'⟩).hash_md5) ms := by
            have hb : (m.hash_md5 == ms[j'].hash_md5) = false := by simpa using hEq
            simp [List.find?, hb]
          cases hseen : strAssocGet hm m.hash_md5 with
          | some o2 =>
            obtain ⟨m0, hf, hmem⟩ := ih hm j' hj' hnone ⟨i', hi', hlt', hih⟩
            exact ⟨m0, by rw [hfind]; exact hf,
              by simp only [findDupsGo, hseen]; exact List.mem_cons_of_mem _ hmem⟩
          | none =>
            have hnone' :
                strAssocGet ((m.hash_md5, m.file_id) :: hm)
                  (ms.get ⟨j', hj'⟩).hash_md5 = none := by
              simp only [strAssocGet]
              rw [if_neg (fun hc => hEq hc.symm)]
              exact hnone
            obtain ⟨m0, hf, hmem⟩ :=
              ih ((m.hash_md5, m.file_id) :: hm) j' hj' hnone' ⟨i', hi', hlt', hih⟩
            exact ⟨m0, by rw [hfind]; exact hf,
              by simp only [findDupsGo, hseen]; exact hmem⟩

theorem findDupsGo_char (ms : List MediaFileM) :
    ∀ (hm : List (String × String)) (e : DupEntry), e ∈ findDupsGo ms hm →
      ∃ i, ∃ hi : i < ms.length, e.duplicate = (ms.get ⟨i, hi⟩).file_id ∧
        ((∃ p, p ∈ hm ∧ p.1 = (ms.get ⟨i, hi⟩).hash_md5 ∧ p.2 = e.original) ∨
         (∃ j, ∃ hj : j < ms.length, j < i ∧
            (ms.get ⟨j, hj⟩).hash_md5 = (ms.get ⟨i, hi⟩).hash_md5 ∧
            e.original = (ms.get ⟨j, hj⟩).file_id)) := by
  induction ms with
  | nil => intro hm e he; simp [findDupsGo] at he
  | cons m ms ih =>
    intro hm e he
    cases hseen : strAssocGet hm m.hash_md5 with
    | some o =>
      simp only [findDupsGo, hseen] at he
      rcases List.mem_cons.mp he with he1 | he2
      · subst he1
        exact ⟨0, by simp, rfl, Or.inl ⟨(m.hash_md5, o), strAssocGet_mem hm _ o hseen, rfl, rfl⟩⟩
      · obtain ⟨i, hi, hdup, hcase⟩ := ih hm e he2
        have hi1 : i + 1 < (m :: ms).length := by simpa using Nat.succ_lt_succ hi
        have hg : (m :: ms).get ⟨i + 1, hi1⟩ = ms.get ⟨i, hi⟩ := rfl
        refine ⟨i + 1, hi1, by rw [hg]; exact hdup, ?_⟩
        rcases hcase with ⟨p, hp, h1, h2⟩ | ⟨j, hj, hlt, hh, ho⟩
        · exact Or.inl ⟨p, hp, by rw [hg]; exact h1, h2⟩
        · have hj1 : j + 1 < (m :: ms).length := by simpa using Nat.succ_lt_succ hj
          have hgj : (m :: ms).get ⟨j + 1, hj1⟩ = ms.get ⟨j, hj⟩ := rfl
          exact Or.inr ⟨j + 1, hj1, by omega, by rw [hg, hgj]; exact hh, by rw [hgj]; exact ho⟩
    | none =>
      simp only [findDupsGo, hseen] at he
      obtain ⟨i, hi, hdup, hcase⟩ := ih _ e he
      have hi1 : i + 1 < (m :: ms).length := by simpa using Nat.succ_lt_succ hi
      have hg : (m :: ms).get ⟨i + 1, hi1⟩ = ms.get ⟨i, hi⟩ := rfl
      refine ⟨i + 1, hi1, by rw [hg]; exact hdup, ?_⟩
      rcases hcase with ⟨p, hp, h1, h2⟩ | ⟨j, hj, hlt, hh, ho⟩
      · rcases List.mem_cons.mp hp with hp0 | hp'
        · refine Or.inr ⟨0, by simp, by omega, ?_, ?_⟩
          · rw [hg]
            have hpm : p.1 = m.hash_md5 := by rw [hp0]
            show m.hash_md5 = (ms.get ⟨i, hi⟩).hash_md5
            exact hpm.symm.trans h1
          · show e.original = m.file_id
            have hpf : p.2 = m.file_id := by rw [hp0]
            exact h2.symm.trans hpf
        · exact Or.inl ⟨p, hp', by rw [hg]; exact h1, h2⟩
      · have hj1 : j + 1 < (m :: ms).length := by simpa using Nat.succ_lt_succ hj
        have hgj : (m :: ms).get ⟨j + 1, hj1⟩ = ms.get ⟨j, hj⟩ := rfl
        exact Or.inr ⟨j + 1, hj1, by omega, by rw [hg, hgj]; exact hh, by rw [hgj]; exact ho⟩

/-- C9: in the media report of an inventory (keyed by distinct file ids),
every file preceded by another file with the same content hash yields a
duplicate-pair entry whose original is the first-seen file with that hash
and whose duplicate is the later file; a file whose hash is unique appears
in no duplicate-pair entry, on either side. -/
theorem c9_duplicate_pairs (inv : List MediaFileM)
    (hids : ∀ i, ∀ hi : i < inv.length, ∀ j, ∀ hj : j < inv.length,
      (inv.get ⟨i, hi⟩).file_id = (inv.get ⟨j, hj⟩).file_id → i = j) :
    (∀ j, ∀ hj : j < inv.length,
      (∃ i, ∃ hi : i < inv.length, i < j ∧
        (inv.get ⟨i, hi⟩).hash_md5 = (inv.get ⟨j, hj⟩).hash_md5) →
      ∃ m0, inv.find? (fun x => x.hash_md5 == (inv.get ⟨j, hj⟩).hash_md5) = some m0 ∧
        DupEntry.mk m0.file_id (inv.get ⟨j, hj⟩).file_id ∈
          (generate_media_report inv).duplicate_files) ∧
    (∀ j, ∀ hj : j < inv.length,
      (∀ i, ∀ hi : i < inv.length, i ≠ j →
        (inv.get ⟨i, hi⟩).hash_md5 ≠ (inv.get ⟨j, hj⟩).hash_md5) →
      ∀ e ∈ (generate_media_report inv).duplicate_files,
        ¬ e.original = (inv.get ⟨j, hj⟩).file_id ∧
        ¬ e.duplicate = (inv.get ⟨j, hj⟩).file_id) := by
  constructor
  · intro j hj hcol
    have h := findDupsGo_mem_first inv [] j hj rfl hcol
    simpa [generate_media_report, duplicateFiles] using h
  · intro j hj huniq e he
    have he2 : e ∈ findDupsGo inv [] := by
      simpa [generate_media_report, duplicateFiles] using he
    obtain ⟨i, hi, hdup, hcase⟩ := findDupsGo_char inv [] e he2
    rcases hcase with ⟨p, hp, _, _⟩ | ⟨j2, hj2, hlt, hh, ho⟩
    · simp at hp
    constructor
    · intro hoj
      have hfe : (inv.get ⟨j2, hj2⟩).file_id = (inv.get ⟨j, hj⟩).file_id :=
        ho.symm.trans hoj
      have hjj : j2 = j := hids j2 hj2 j hj hfe
      subst hjj
      exact huniq i hi (by omega) hh.symm
    · intro hdj
      have hfe : (inv.get ⟨i, hi⟩).file_id = (inv.get ⟨j, hj⟩).file_id :=
        hdup.symm.trans hdj
      have hij : i = j := hids i hi j hj hfe
      subst hij
      exact huniq j2 hj2 (by omega) hh

/-- C9 witness: the theorem applied to the concrete inventory — the
colliding pair is reported with the first-seen file as original, and the
unique file appears in no pair. -/
theorem c9_witness :
    (∃ m0, c9inv.find? (fun x => x.hash_md5 == (c9inv.get ⟨1, by decide⟩).hash_md5) =
        some m0 ∧
      DupEntry.mk m0.file_id (c9inv.get ⟨1, by decide⟩).file_id ∈
        (generate_media_report c9inv).duplicate_files) ∧
    (∀ e ∈ (generate_media_report c9inv).duplicate_files,
      ¬ e.original = (c9inv.get ⟨2, by decide⟩).file_id ∧
      ¬ e.duplicate = (c9inv.get ⟨2, by decide⟩).file_id) :=
  ⟨(c9_duplicate_pairs c9inv (by decide)).1 1 (by decide)
      ⟨0, by decide, by decide, by decide⟩,
   (c9_duplicate_pairs c9inv (by decide)).2 2 (by decide) (by decide)⟩

theorem emoji_char_large (c : Char) (hc : isEmojiChar c = true) : 0x2708 ≤ c.toNat := by
  simp only [isEmojiChar, Bool.or_eq_true, Bool.and_eq_true, decide_eq_true_eq] at hc
  omega

theorem emoji_not_space (c : Char) (hc : isEmojiChar c = true) : isPySpace c = false := by
  simp only [isEmojiChar, Bool.or_eq_true, Bool.and_eq_true, decide_eq_true_eq] at hc
  rw [Bool.eq_false_iff]
  intro h
  simp only [isPySpace, Bool.or_eq_true, Bool.and_eq_true, decide_eq_true_eq] at h
  omega

theorem emoji_ne_space_char (c : Char) (hc : isEmojiChar c = true) : ¬ c = ' ' := by
  intro h
  have h2 := emoji_not_space c hc
  rw [h] at h2
  exact absurd h2 (by decide)

theorem count_dropWhile_of_neg (c : Char) (p : Char → Bool) (hc : p c = false) :
    ∀ l : List Char, (l.dropWhile p).count c = l.count c := by
  intro l
  induction l with
  | nil => rfl
  | cons a l ih =>
    by_cases ha : p a = true
    · rw [List.dropWhile_cons_of_pos ha, ih]
      have hne : ¬ c = a := fun h => by rw [h, ha] at hc; exact Bool.noConfusion hc
      rw [List.count_cons_of_ne hne]
    · rw [List.dropWhile_cons_of_neg (by simpa using ha)]

theorem count_pyStrip (c : Char) (hc : isPySpace c = false) (l : List Char) :
    (pyStrip l).count c = l.count c := by
  unfold pyStrip
  rw [List.count_reverse, count_dropWhile_of_neg c _ hc, List.count_reverse,
    count_dropWhile_of_neg c _ hc]

theorem count_zero_of_small (c : Char) (h : 0x2708 ≤ c.toNat) (l : List Char)
    (hl : ∀ d ∈ l, d.toNat < 0x2708) : l.count c = 0 :=
  List.count_eq_zero.mpr (fun hm => absurd (hl c hm) (by omega))

theorem count_replaceAllF (pat repl : List Char) (c : Char)
    (hpat : pat ≠ []) (hcp : pat.count c = 0) (hcr : repl.count c = 0) :
    ∀ fuel (l : List Char), l.length ≤ fuel →
      (replaceAllF pat repl fuel l).count c = l.count c := by
  intro fuel
  induction fuel with
  | zero =>
    intro l hl
    cases l with
    | nil => rfl
    | cons a cs => simp at hl
  | succ fuel ih =>
    intro l hl
    cases l with
    | nil => rfl
    | cons a cs =>
      simp only [replaceAllF]
      by_cases hpre : pat.isPrefixOf (a :: cs)
      · rw [if_pos hpre]
        obtain ⟨t, ht⟩ := List.isPrefixOf_iff_prefix.mp hpre
        have hp1 : 1 ≤ pat.length := by
          cases pat with
          | nil => exact absurd rfl hpat
          | cons p ps => simp
        have hlen := congrArg List.length ht
        simp only [List.length_append, List.length_cons] at hlen
        have hdrop : (a :: cs).drop pat.length = t := by rw [← ht, List.drop_left]
        rw [List.count_append, hcr, hdrop, ih t (by simp at hl; omega)]
        rw [← ht, List.count_append, hcp]
      · rw [if_neg hpre]
        by_cases hac : c = a
        · subst hac
          rw [List.count_cons_self, List.count_cons_self, ih cs (by simp at hl; omega)]
        · rw [List.count_cons_of_ne hac, List.count_cons_of_ne hac,
            ih cs (by simp at hl; omega)]

theorem count_replaceAll (pat repl : List Char) (c : Char) (hpat : pat ≠ [])
    (hcp : pat.count c = 0) (hcr : repl.count c = 0) (l : List Char) :
    (replaceAll pat repl l).count c = l.count c :=
  count_replaceAllF pat repl c hpat hcp hcr l.length l (Nat.le_refl _)

theorem count_decodeEntities (c : Char) (hc : isEmojiChar c = true) (l : List Char) :
    (decodeEntities l).count c = l.count c := by
  have hbig := emoji_char_large c hc
  unfold decodeEntities
  rw [count_replaceAll _ _ c (by decide) (count_zero_of_small c hbig _ (by decide))
      (count_zero_of_small c hbig _ (by decide)),
    count_replaceAll _ _ c (by decide) (count_zero_of_small c hbig _ (by decide))
      (count_zero_of_small c hbig _ (by decide)),
    count_replaceAll _ _ c (by decide) (count_zero_of_small c hbig _ (by decide))
      (count_zero_of_small c hbig _ (by decide)),
    count_replaceAll _ _ c (by decide) (count_zero_of_small c hbig _ (by decide))
      (count_zero_of_small c hbig _ (by decide)),
    count_replaceAll _ _ c (by decide) (count_zero_of_small c hbig _ (by decide))
      (count_zero_of_small c hbig _ (by decide))]

theorem count_nfkcChar (c d : Char) (hc : isEmojiChar c = true) :
    (nfkcChar d).count c = if d = c then 1 else 0 := by
  have hbig := emoji_char_large c hc
  have hckey : ¬ c.toNat = 0xFB01 ∧ ¬ c.toNat = 0xFF20 ∧ ¬ c.toNat = 0xFF21 ∧
      ¬ c.toNat = 0xA0 := by
    simp only [isEmojiChar, Bool.or_eq_true, Bool.and_eq_true, decide_eq_true_eq] at hc
    omega
  have hdc : ∀ k : Nat, d.toNat = k → ¬ c.toNat = k → ¬ d = c := by
    intro k hdk hck h
    rw [h] at hdk
    exact hck hdk
  unfold nfkcChar
  by_cases h1 : d.toNat = 0xFB01
  · rw [if_pos h1, if_neg (hdc _ h1 hckey.1)]
    exact count_zero_of_small c hbig _ (by decide)
  rw [if_neg h1]
  by_cases h2 : d.toNat = 0xFF20
  · rw [if_pos h2, if_neg (hdc _ h2 hckey.2.1)]
    exact count_zero_of_small c hbig _ (by decide)
  rw [if_neg h2]
  by_cases h3 : d.toNat = 0xFF21
  · rw [if_pos h3, if_neg (hdc _ h3 hckey.2.2.1)]
    exact count_zero_of_small c hbig _ (by decide)
  rw [if_neg h3]
  by_cases h4 : d.toNat = 0xA0
  · rw [if_pos h4, if_neg (hdc _ h4 hckey.2.2.2)]
    exact count_zero_of_small c hbig _ (by decide)
  rw [if_neg h4]
  rw [List.count_singleton]
  by_cases hd : d = c
  · rw [if_pos hd, if_pos (by simpa using hd)]
  · rw [if_neg hd, if_neg (by simpa using hd)]

theorem count_nfkc (c : Char) (hc : isEmojiChar c = true) (l : List Char) :
    (nfkc l).count c = l.count c := by
  induction l with
  | nil => rfl
  | cons d l ih =>
    have hstep : nfkc (d :: l) = nfkcChar d ++ nfkc l := by simp [nfkc]
    rw [hstep, List.count_append, count_nfkcChar c d hc, ih, List.count_cons]
    by_cases hdc : d = c
    · rw [if_pos hdc, if_pos (by simpa using hdc)]
      omega
    · rw [if_neg hdc, if_neg (by simpa using hdc)]
      omega

theorem splitRuns_ne_nil (l : List Char) : splitRuns l ≠ [] := by
  induction l with
  | nil => simp [splitRuns]
  | cons a l ih =>
    have hstep : splitRuns (a :: l) =
        if isPySpace a then [] :: splitRuns l
        else
          match splitRuns l with
          | [] => [[a]]
          | w :: ws => (a :: w) :: ws := rfl
    rw [hstep]
    by_cases ha : isPySpace a = true
    · simp [ha]
    · rw [if_neg ha]
      cases h : splitRuns l <;> simp

theorem count_joinSpace (c : Char) (hc : ¬ c = ' ') :
    ∀ ws : List (List Char),
      (joinSpace ws).count c = (ws.map (fun w => w.count c)).sum := by
  intro ws
  induction ws with
  | nil => rfl
  | cons w ws ih =>
    cases ws with
    | nil => simp [joinSpace]
    | cons w2 ws2 =>
      have hstep : joinSpace (w :: w2 :: ws2) = w ++ ' ' :: joinSpace (w2 :: ws2) := rfl
      rw [hstep, List.count_append, List.count_cons_of_ne hc, ih]
      simp

theorem sum_counts_splitRuns (c : Char) (hc : isPySpace c = false) :
    ∀ l : List Char, ((splitRuns l).map (fun w => w.count c)).sum = l.count c := by
  intro l
  induction l with
  | nil => simp [splitRuns]
  | cons a l ih =>
    have hstep : splitRuns (a :: l) =
        if isPySpace a then [] :: splitRuns l
        else
          match splitRuns l with
          | [] => [[a]]
          | w :: ws => (a :: w) :: ws := rfl
    rw [hstep]
    by_cases ha : isPySpace a = true
    · rw [if_pos ha]
      have hca : ¬ c = a := fun h => by rw [h, ha] at hc; exact Bool.noConfusion hc
      simp only [List.map_cons, List.sum_cons, List.count_nil]
      rw [ih, List.count_cons_of_ne hca]
      omega
    · rw [if_neg ha]
      cases hsp : splitRuns l with
      | nil => exact absurd hsp (splitRuns_ne_nil l)
      | cons w ws =>
        rw [hsp] at ih
        simp only [List.map_cons, List.sum_cons] at ih ⊢
        by_cases hac : c = a
        · subst hac
          rw [List.count_cons_self, List.count_cons_self]
          omega
        · rw [List.count_cons_of_ne hac, List.count_cons_of_ne hac]
          omega

theorem sum_counts_filter_nonempty (c : Char) :
    ∀ ws : List (List Char),
      ((ws.filter (fun w => !w.isEmpty)).map (fun w => w.count c)).sum =
      (ws.map (fun w => w.count c)).sum := by
  intro ws
  induction ws with
  | nil => rfl
  | cons w ws ih =>
    by_cases hw : w.isEmpty = true
    · have hwnil : w = [] := by
        cases w with
        | nil => rfl
        | cons a l => simp at hw
      rw [List.filter_cons]
      simp [hw, hwnil, ih]
    · rw [List.filter_cons]
      simp only [hw, Bool.not_false, if_true, List.map_cons, List.sum_cons, ih]

theorem count_collapseWs (c : Char) (hc : isPySpace c = false) (l : List Char) :
    (collapseWs l).count c = l.count c := by
  have hc2 : ¬ c = ' ' := fun h => by rw [h] at hc; exact absurd hc (by decide)
  unfold collapseWs pyWords
  rw [count_joinSpace c hc2, sum_counts_filter_nonempty, sum_counts_splitRuns c hc]

theorem count_joinSpace_singletons (c : Char) (hc : ¬ c = ' ') (el : List Char) :
    (joinSpace (el.map (fun e => [e]))).count c = el.count c := by
  rw [count_joinSpace c hc]
  induction el with
  | nil => rfl
  | cons e el ih =>
    simp only [List.map_cons, List.sum_cons]
    rw [ih, List.count_singleton, List.count_cons]
    exact Nat.add_comm _ _

/-- C10: under default options, when the input contains at least one emoji
character the cleaned output is the cleaned body followed by a space and
the space-separated list of every emoji character of the input in order of
appearance; and when nothing is removed by the URL/email substitutions,
each emoji character consequently occurs twice as often in the output as
in the input (once in place in the body, once in the appended tail). -/
theorem c10_emoji_append_and_double (t : List Char) :
    (t.filter isEmojiChar ≠ [] →
      tcClean t = tcCleanBody t ++ ' ' ::
        joinSpace ((t.filter isEmojiChar).map (fun c => [c]))) ∧
    (subUrl (decodeEntities (pyStrip t)) = decodeEntities (pyStrip t) →
     subEmail (decodeEntities (pyStrip t)) = decodeEntities (pyStrip t) →
     ∀ c, isEmojiChar c = true → (tcClean t).count c = 2 * t.count c) := by
  have happend : t.filter isEmojiChar ≠ [] →
      tcClean t = tcCleanBody t ++ ' ' ::
        joinSpace ((t.filter isEmojiChar).map (fun c => [c])) := by
    intro hne
    have ht : t.isEmpty = false := by
      cases t with
      | nil => simp at hne
      | cons a l => rfl
    have hel : (t.filter isEmojiChar).isEmpty = false := by
      cases h : t.filter isEmojiChar with
      | nil => exact absurd h hne
      | cons a l => rfl
    simp [tcClean, tcCleanOpts, tcCleanBody, ht, hel]
  refine ⟨happend, ?_⟩
  intro hu he c hc
  have hsp := emoji_not_space c hc
  have hc2 := emoji_ne_space_char c hc
  have hbody : (tcCleanBody t).count c = t.count c := by
    unfold tcCleanBody
    rw [hu, he, count_collapseWs c hsp, count_nfkc c hc, count_decodeEntities c hc,
      count_pyStrip c hsp]
  have hfilter : (t.filter isEmojiChar).count c = t.count c := List.count_filter hc
  by_cases hel : t.filter isEmojiChar = []
  · have ht0 : t.count c = 0 := by rw [← hfilter, hel]; rfl
    by_cases ht : t.isEmpty = true
    · have htn : t = [] := by
        cases t with
        | nil => rfl
        | cons a l => simp at ht
      rw [htn]
      rfl
    · have htB : t.isEmpty = false := by
        revert ht
        cases t.isEmpty <;> simp
      have helB : (t.filter isEmojiChar).isEmpty = true := by rw [hel]; rfl
      have hclean : tcClean t = tcCleanBody t := by
        simp [tcClean, tcCleanOpts, tcCleanBody, htB, helB]
      rw [hclean, hbody, ht0]
  · rw [happend hel, List.count_append, hbody, List.count_cons_of_ne hc2,
      count_joinSpace_singletons c hc2, hfilter]
    omega

/-- C10 witness: the theorem applied at the concrete input — the output is
the body plus the appended emoji tail, and the emoji occurs twice. -/
theorem c10_witness :
    (tcClean c10text = tcCleanBody c10text ++ ' ' ::
        joinSpace ((c10text.filter isEmojiChar).map (fun c => [c]))) ∧
    (tcClean c10text).count (Char.ofNat 0x1F600) =
      2 * c10text.count (Char.ofNat 0x1F600) :=
  ⟨(c10_emoji_append_and_double c10text).1 (by decide),
   (c10_emoji_append_and_double c10text).2 (by decide) (by decide) _ (by decide)⟩

theorem dropWhile_eq_self_of_head (p : Char → Bool) (l : List Char)
    (h : ∀ c, l.head? = some c → p c = false) : l.dropWhile p = l := by
  cases l with
  | nil => rfl
  | cons a l =>
    rw [List.dropWhile_cons_of_neg]
    simp [h a rfl]

theorem pyStrip_eq_self (l : List Char)
    (h1 : ∀ c, l.head? = some c → isPySpace c = false)
    (h2 : ∀ c, l.getLast? = some c → isPySpace c = false) : pyStrip l = l := by
  unfold pyStrip
  rw [dropWhile_eq_self_of_head _ l h1,
    dropWhile_eq_self_of_head _ l.reverse (by intro c hc; rw [List.head?_reverse] at hc; exact h2 c hc),
    List.reverse_reverse]

theorem splitRuns_chars (z : List Char) :
    ∀ w ∈ splitRuns z, ∀ ch ∈ w, isPySpace ch = false := by
  induction z with
  | nil =>
    intro w hw ch hch
    simp [splitRuns] at hw
    rw [hw] at hch
    exact absurd hch (List.not_mem_nil ch)
  | cons a z ih =>
    intro w hw ch hch
    have hstep : splitRuns (a :: z) =
        if isPySpace a then [] :: splitRuns z
        else
          match splitRuns z with
          | [] => [[a]]
          | w0 :: ws0 => (a :: w0) :: ws0 := rfl
    rw [hstep] at hw
    by_cases ha : isPySpace a = true
    · rw [if_pos ha] at hw
      rcases List.mem_cons.mp hw with hw1 | hw2
      · rw [hw1] at hch; exact absurd hch (List.not_mem_nil ch)
      · exact ih w hw2 ch hch
    · rw [if_neg ha] at hw
      cases hsp : splitRuns z with
      | nil => exact absurd hsp (splitRuns_ne_nil z)
      | cons w0 ws0 =>
        rw [hsp] at hw
        rcases List.mem_cons.mp hw with hw1 | hw2
        · rw [hw1] at hch
          rcases List.mem_cons.mp hch with hch1 | hch2
          · rw [hch1]
            exact Bool.not_eq_true _ ▸ (by revert ha; cases isPySpace a <;> simp)
          · exact ih w0 (hsp ▸ List.mem_cons_self _ _) ch hch2
        · exact ih w (hsp ▸ List.mem_cons_of_mem _ hw2) ch hch

theorem pyWords_props (z : List Char) :
    ∀ w ∈ pyWords z, w ≠ [] ∧ ∀ ch ∈ w, isPySpace ch = false := by
  intro w hw
  unfold pyWords at hw
  have hmem := List.mem_of_mem_filter hw
  have hne : w ≠ [] := by
    have := List.of_mem_filter hw
    intro hq
    rw [hq] at this
    exact absurd this (by decide)
  exact ⟨hne, splitRuns_chars z w hmem⟩

theorem joinSpace_ne_nil (w : List Char) (ws : List (List Char)) (hw : w ≠ []) :
    joinSpace (w :: ws) ≠ [] := by
  cases ws with
  | nil => exact hw
  | cons w2 ws2 =>
    have hstep : joinSpace (w :: w2 :: ws2) = w ++ ' ' :: joinSpace (w2 :: ws2) := rfl
    rw [hstep]
    cases w with
    | nil => exact absurd rfl hw
    | cons a w' => simp

theorem joinSpace_head_nonspace (ws : List (List Char))
    (hws : ∀ w ∈ ws, w ≠ [] ∧ ∀ ch ∈ w, isPySpace ch = false) :
    ∀ c, (joinSpace ws).head? = some c → isPySpace c = false := by
  cases ws with
  | nil => intro c h; exact absurd h (by simp [joinSpace])
  | cons w ws =>
    intro c h
    obtain ⟨hw, hch⟩ := hws w (List.mem_cons_self _ _)
    cases w with
    | nil => exact absurd rfl hw
    | cons a w' =>
      have hca : c = a := by
        cases ws with
        | nil =>
          simp [joinSpace] at h
          exact h.symm
        | cons w2 ws2 =>
          have hstep : joinSpace ((a :: w') :: w2 :: ws2) =
              a :: (w' ++ ' ' :: joinSpace (w2 :: ws2)) := rfl
          rw [hstep] at h
          simp at h
          exact h.symm
      rw [hca]
      exact hch a (List.mem_cons_self _ _)

theorem joinSpace_getLast_nonspace (ws : List (List Char))
    (hws : ∀ w ∈ ws, w ≠ [] ∧ ∀ ch ∈ w, isPySpace ch = false) :
    ∀ c, (joinSpace ws).getLast? = some c → isPySpace c = false := by
  induction ws with
  | nil => intro c h; exact absurd h (by simp [joinSpace])
  | cons w ws ih =>
    intro c h
    cases ws with
    | nil =>
      exact (hws w (List.mem_cons_self _ _)).2 c (List.mem_of_getLast?_eq_some h)
    | cons w2 ws2 =>
      have hstep : joinSpace (w :: w2 :: ws2) = w ++ ' ' :: joinSpace (w2 :: ws2) := rfl
      rw [hstep] at h
      have hne : joinSpace (w2 :: ws2) ≠ [] :=
        joinSpace_ne_nil w2 ws2 (hws w2 (List.mem_cons_of_mem _ (List.mem_cons_self _ _))).1
      obtain ⟨y, hy⟩ : ∃ y, (joinSpace (w2 :: ws2)).getLast? = some y := by
        cases hq : (joinSpace (w2 :: ws2)).getLast? with
        | some y => exact ⟨y, rfl⟩
        | none =>
          exact absurd (List.getLast?_eq_none_iff.mp hq) hne
      have htail : (' ' :: joinSpace (w2 :: ws2)) = [' '] ++ joinSpace (w2 :: ws2) := rfl
      rw [List.getLast?_append, htail, List.getLast?_append, hy] at h
      simp only [Option.or_some] at h
      have hcy : c = y := by
        have h2 : y = c := by simpa using h
        exact h2.symm
      rw [hcy]
      exact ih (fun w hw => hws w (List.mem_cons_of_mem _ hw)) y hy

theorem pyStrip_collapseWs (z : List Char) : pyStrip (collapseWs z) = collapseWs z := by
  apply pyStrip_eq_self
  · exact joinSpace_head_nonspace (pyWords z) (pyWords_props z)
  · exact joinSpace_getLast_nonspace (pyWords z) (pyWords_props z)

theorem nfkcChar_fix_of_out (c d : Char) (h : d ∈ nfkcChar c) : nfkcChar d = [d] := by
  unfold nfkcChar at h
  by_cases h1 : c.toNat = 0xFB01
  · rw [if_pos h1] at h
    rcases List.mem_cons.mp h with h2 | h2
    · subst h2; decide
    rcases List.mem_cons.mp h2 with h3 | h3
    · subst h3; decide
    · exact absurd h3 (List.not_mem_nil d)
  rw [if_neg h1] at h
  by_cases h2 : c.toNat = 0xFF20
  · rw [if_pos h2] at h
    rcases List.mem_cons.mp h with h3 | h3
    · subst h3; decide
    · exact absurd h3 (List.not_mem_nil d)
  rw [if_neg h2] at h
  by_cases h3 : c.toNat = 0xFF21
  · rw [if_pos h3] at h
    rcases List.mem_cons.mp h with h4 | h4
    · subst h4; decide
    · exact absurd h4 (List.not_mem_nil d)
  rw [if_neg h3] at h
  by_cases h4 : c.toNat = 0xA0
  · rw [if_pos h4] at h
    rcases List.mem_cons.mp h with h5 | h5
    · subst h5; decide
    · exact absurd h5 (List.not_mem_nil d)
  rw [if_neg h4] at h
  rcases List.mem_cons.mp h with h5 | h5
  · subst h5
    unfold nfkcChar
    rw [if_neg h1, if_neg h2, if_neg h3, if_neg h4]
  · exact absurd h5 (List.not_mem_nil d)

theorem nfkc_eq_self_of_fix (l : List Char) (h : ∀ c ∈ l, nfkcChar c = [c]) :
    nfkc l = l := by
  induction l with
  | nil => rfl
  | cons c l ih =>
    have hstep : nfkc (c :: l) = nfkcChar c ++ nfkc l := by simp [nfkc]
    rw [hstep, h c (List.mem_cons_self _ _), ih (fun d hd => h d (List.mem_cons_of_mem _ hd))]
    rfl

theorem mem_splitRuns_sub (z : List Char) :
    ∀ w ∈ splitRuns z, ∀ c ∈ w, c ∈ z := by
  induction z with
  | nil =>
    intro w hw c hc
    simp [splitRuns] at hw
    rw [hw] at hc
    exact absurd hc (List.not_mem_nil c)
  | cons a z ih =>
    intro w hw c hc
    have hstep : splitRuns (a :: z) =
        if isPySpace a then [] :: splitRuns z
        else
          match splitRuns z with
          | [] => [[a]]
          | w0 :: ws0 => (a :: w0) :: ws0 := rfl
    rw [hstep] at hw
    by_cases ha : isPySpace a = true
    · rw [if_pos ha] at hw
      rcases List.mem_cons.mp hw with hw1 | hw2
      · rw [hw1] at hc; exact absurd hc (List.not_mem_nil c)
      · exact List.mem_cons_of_mem _ (ih w hw2 c hc)
    · rw [if_neg ha] at hw
      cases hsp : splitRuns z with
      | nil => exact absurd hsp (splitRuns_ne_nil z)
      | cons w0 ws0 =>
        rw [hsp] at hw
        rcases List.mem_cons.mp hw with hw1 | hw2
        · rw [hw1] at hc
          rcases List.mem_cons.mp hc with hc1 | hc2
          · rw [hc1]; exact List.mem_cons_self _ _
          · exact List.mem_cons_of_mem _
              (ih w0 (hsp ▸ List.mem_cons_self _ _) c hc2)
        · exact List.mem_cons_of_mem _
            (ih w (hsp ▸ List.mem_cons_of_mem _ hw2) c hc)

theorem mem_joinSpace (ws : List (List Char)) :
    ∀ c ∈ joinSpace ws, (∃ w ∈ ws, c ∈ w) ∨ c = ' ' := by
  induction ws with
  | nil => intro c hc; exact absurd hc (List.not_mem_nil c)
  | cons w ws ih =>
    intro c hc
    cases ws with
    | nil => exact Or.inl ⟨w, List.mem_cons_self _ _, hc⟩
    | cons w2 ws2 =>
      have hstep : joinSpace (w :: w2 :: ws2) = w ++ ' ' :: joinSpace (w2 :: ws2) := rfl
      rw [hstep] at hc
      rcases List.mem_append.mp hc with hc1 | hc2
      · exact Or.inl ⟨w, List.mem_cons_self _ _, hc1⟩
      · rcases List.mem_cons.mp hc2 with hc3 | hc4
        · exact Or.inr hc3
        · rcases ih c hc4 with ⟨w3, hw3, hcw3⟩ | hsp
          · exact Or.inl ⟨w3, List.mem_cons_of_mem _ hw3, hcw3⟩
          · exact Or.inr hsp

theorem mem_collapseWs (z : List Char) : ∀ c ∈ collapseWs z, c ∈ z ∨ c = ' ' := by
  intro c hc
  rcases mem_joinSpace (pyWords z) c hc with ⟨w, hw, hcw⟩ | hsp
  · exact Or.inl (mem_splitRuns_sub z w (List.mem_of_mem_filter hw) c hcw)
  · exact Or.inr hsp

theorem mem_nfkc_fix (y : List Char) : ∀ d ∈ nfkc y, nfkcChar d = [d] := by
  intro d hd
  unfold nfkc at hd
  rw [List.mem_flatten] at hd
  obtain ⟨w, hw, hdw⟩ := hd
  rw [List.mem_map] at hw
  obtain ⟨c, _, hcw⟩ := hw
  rw [← hcw] at hdw
  exact nfkcChar_fix_of_out c d hdw

theorem nfkc_collapseWs_nfkc (y : List Char) :
    nfkc (collapseWs (nfkc y)) = collapseWs (nfkc y) := by
  apply nfkc_eq_self_of_fix
  intro c hc
  rcases mem_collapseWs (nfkc y) c hc with hmem | hsp
  · exact mem_nfkc_fix y c hmem
  · rw [hsp]; decide

theorem splitRuns_all_nonspace (w : List Char) (h : ∀ ch ∈ w, isPySpace ch = false) :
    splitRuns w = [w] := by
  induction w with
  | nil => rfl
  | cons a w ih =>
    have hstep : splitRuns (a :: w) =
        if isPySpace a then [] :: splitRuns w
        else
          match splitRuns w with
          | [] => [[a]]
          | w0 :: ws0 => (a :: w0) :: ws0 := rfl
    rw [hstep, if_neg (by simp [h a (List.mem_cons_self _ _)]),
      ih (fun ch hch => h ch (List.mem_cons_of_mem _ hch))]

theorem splitRuns_append_space (w r : List Char)
    (h : ∀ ch ∈ w, isPySpace ch = false) :
    splitRuns (w ++ ' ' :: r) = w :: splitRuns r := by
  induction w with
  | nil =>
    have hstep : splitRuns (' ' :: r) =
        if isPySpace ' ' then [] :: splitRuns r
        else
          match splitRuns r with
          | [] => [[' ']]
          | w0 :: ws0 => (' ' :: w0) :: ws0 := rfl
    show splitRuns (' ' :: r) = [] :: splitRuns r
    rw [hstep, if_pos (by decide)]
  | cons a w ih =>
    have hstep : splitRuns (a :: (w ++ ' ' :: r)) =
        if isPySpace a then [] :: splitRuns (w ++ ' ' :: r)
        else
          match splitRuns (w ++ ' ' :: r) with
          | [] => [[a]]
          | w0 :: ws0 => (a :: w0) :: ws0 := rfl
    show splitRuns (a :: (w ++ ' ' :: r)) = (a :: w) :: splitRuns r
    rw [hstep, if_neg (by simp [h a (List.mem_cons_self _ _)]),
      ih (fun ch hch => h ch (List.mem_cons_of_mem _ hch))]

theorem pyWords_joinSpace :
    ∀ ws : List (List Char), (∀ w ∈ ws, w ≠ [] ∧ ∀ ch ∈ w, isPySpace ch = false) →
      pyWords (joinSpace ws) = ws := by
  intro ws
  induction ws with
  | nil => intro _; rfl
  | cons w ws ih =>
    intro hws
    obtain ⟨hw, hch⟩ := hws w (List.mem_cons_self _ _)
    cases ws with
    | nil =>
      show pyWords (joinSpace [w]) = [w]
      have hj : joinSpace [w] = w := rfl
      rw [hj]
      unfold pyWords
      rw [splitRuns_all_nonspace w hch, List.filter_cons]
      have hwB : w.isEmpty = false := by
        cases w with
        | nil => exact absurd rfl hw
        | cons a l => rfl
      simp [hwB]
    | cons w2 ws2 =>
      have hstep : joinSpace (w :: w2 :: ws2) = w ++ ' ' :: joinSpace (w2 :: ws2) := rfl
      have htail := ih (fun v hv => hws v (List.mem_cons_of_mem _ hv))
      rw [hstep]
      unfold pyWords
      rw [splitRuns_append_space w _ hch, List.filter_cons]
      have hwB : w.isEmpty = false := by
        cases w with
        | nil => exact absurd rfl hw
        | cons a l => rfl
      unfold pyWords at htail
      simp only [hwB, Bool.not_false, if_true]
      rw [htail]

theorem collapseWs_idem (z : List Char) : collapseWs (collapseWs z) = collapseWs z := by
  show joinSpace (pyWords (joinSpace (pyWords z))) = collapseWs z
  rw [pyWords_joinSpace (pyWords z) (pyWords_props z)]
  rfl

/-- C6 counterexample: the text consisting of a double-encoded ampersand
entity contains no URL, mention, or email matches (the removal
substitutions leave it unchanged), yet clean is not idempotent on it: one
pass decodes one entity layer, a second pass decodes another. -/
theorem c6_counterexample :
    subUrl "&amp;amp;".data = "&amp;amp;".data ∧
    subMention "&amp;amp;".data = "&amp;amp;".data ∧
    subEmail "&amp;amp;".data = "&amp;amp;".data ∧
    tcClean (tcClean "&amp;amp;".data) ≠ tcClean "&amp;amp;".data := by decide

theorem tcClean_eq_body_of_no_emoji (u : List Char) (hu : u.isEmpty = false)
    (hf : (u.filter isEmojiChar).isEmpty = true) :
    tcClean u = collapseWs (nfkc (subEmail (subUrl (decodeEntities (pyStrip u))))) := by
  simp [tcClean, tcCleanOpts, hu, hf]

/-- C6 amended: under default options, clean is idempotent once its OUTPUT
is stable under the decoding and removal stages: for every text t such
that clean(t) is unchanged by HTML-entity decoding and by the URL, mention
and email substitutions, and clean(t) contains no emoji characters,
clean(clean(t)) = clean(t).  (The conditions must hold of clean(t), not
merely of t: double-encoded entities, NFKC-produced pattern characters and
preserved emojis all defeat a second pass otherwise.) -/
theorem c6_amended_idempotent_on_stable (t : List Char)
    (hdec : decodeEntities (tcClean t) = tcClean t)
    (hurl : subUrl (tcClean t) = tcClean t)
    (hmen : subMention (tcClean t) = tcClean t)
    (hema : subEmail (tcClean t) = tcClean t)
    (hemo : (tcClean t).filter isEmojiChar = []) :
    tcClean (tcClean t) = tcClean t := by
  by_cases hs : tcClean t = []
  · rw [hs]; rfl
  · have hsne : (tcClean t).isEmpty = false := by
      cases hq : tcClean t with
      | nil => exact absurd hq hs
      | cons a s2 => rfl
    have ht : t.isEmpty = false := by
      cases t with
      | nil => simp [tcClean, tcCleanOpts] at hs
      | cons b t2 => rfl
    have htf : t.filter isEmojiChar = [] := by
      by_contra hne
      obtain ⟨e, rest, hfe⟩ : ∃ e rest, t.filter isEmojiChar = e :: rest := by
        cases hq : t.filter isEmojiChar with
        | nil => exact absurd hq hne
        | cons e rest => exact ⟨e, rest, rfl⟩
      have he : isEmojiChar e = true := by
        have hm : e ∈ t.filter isEmojiChar := by
          rw [hfe]; exact List.mem_cons_self _ _
        exact (List.mem_filter.mp hm).2
      have hel : (t.filter isEmojiChar).isEmpty = false := by rw [hfe]; rfl
      have happ : tcClean t = tcCleanBody t ++ ' ' ::
          joinSpace ((t.filter isEmojiChar).map (fun c => [c])) := by
        simp [tcClean, tcCleanOpts, tcCleanBody, ht, hel]
      have hmem : e ∈ tcClean t := by
        rw [happ, hfe]
        apply List.mem_append_right
        apply List.mem_cons_of_mem
        cases rest with
        | nil => simp [joinSpace]
        | cons r rs =>
          simp only [List.map_cons]
          have hJ : joinSpace ([e] :: [r] :: rs.map (fun c => [c])) =
              e :: ' ' :: joinSpace ([r] :: rs.map (fun c => [c])) := rfl
          rw [hJ]
          exact List.mem_cons_self _ _
      have hin : e ∈ (tcClean t).filter isEmojiChar := List.mem_filter.mpr ⟨hmem, he⟩
      rw [hemo] at hin
      exact absurd hin (List.not_mem_nil e)
    have hfB : (t.filter isEmojiChar).isEmpty = true := by rw [htf]; rfl
    have hform := tcClean_eq_body_of_no_emoji t ht hfB
    have hK1 : pyStrip (tcClean t) = tcClean t := by
      rw [hform]; exact pyStrip_collapseWs _
    have hK2 : nfkc (tcClean t) = tcClean t := by
      rw [hform]; exact nfkc_collapseWs_nfkc _
    have hK3 : collapseWs (tcClean t) = tcClean t := by
      rw [hform]; exact collapseWs_idem _
    have hfB2 : ((tcClean t).filter isEmojiChar).isEmpty = true := by rw [hemo]; rfl
    have hfinal := tcClean_eq_body_of_no_emoji (tcClean t) hsne hfB2
    rw [hfinal, hK1, hdec, hurl, hema, hK2, hK3]

/-- C6 amended witness: the amended theorem applied at a concrete stable
text. -/
theorem c6_amended_witness :
    tcClean (tcClean "hello world".data) = tcClean "hello world".data :=
  c6_amended_idempotent_on_stable "hello world".data
    (by decide) (by decide) (by decide) (by decide) (by decide)
